import Mathlib

/-!
Verification of core components of an EtherCAT main-device implementation
(frame store, PDU loop, distributed-clock engine) against its natural-language
specification.  Rust source functions are shallowly embedded as executable Lean
definitions; machine integers are modelled as `Nat` with explicit saturation or
masking where the source relies on it.
-/

namespace EtherCrab

/-! ## Wire primitives

Modelled from the spec: the `ethercrab-wire` primitive impls are not under
`src/` (only `ethercrab-wire/src/error.rs` is).  The spec states that all
multi-byte fields are little-endian, so `u16` packs to its two little-endian
bytes. -/

/-- Modelled from the spec: little-endian packing of a `u16`
(`u16::pack_to_slice_unchecked` from the absent `ethercrab-wire` impls). -/
def u16LeBytes (v : Nat) : List Nat :=
  [v % 256, (v / 256) % 256]

/-- Modelled from the spec: little-endian read of a `u16` from two bytes
(`u16::unpack_from_slice` from the absent `ethercrab-wire` impls). -/
def u16FromLe (b0 b1 : Nat) : Nat :=
  b0 + 256 * b1

/-- Modelled from the spec: `LEN_MASK` is defined in the crate root, which is
not under `src/`.  The spec gives the EtherCAT frame header an 11-bit length
field, so the mask is `0x7FF`. -/
def LEN_MASK : Nat := 0x7FF

/-! ## EtherCAT frame header (`src/src/pdu_loop/frame_header.rs`) -/

/-- `ProtocolType` from `frame_header.rs`; only `DlPdu = 0x01` exists. -/
inductive ProtocolType where
  | DlPdu
  deriving Repr, DecidableEq

/-- Numeric discriminant of `ProtocolType` (its `repr(u8)` value). -/
def ProtocolType.code : ProtocolType → Nat
  | .DlPdu => 0x01

/-- `EthercatFrameHeader` from `frame_header.rs`. -/
structure EthercatFrameHeader where
  payload_len : Nat
  protocol : ProtocolType
  deriving Repr, DecidableEq

/-- `EthercatFrameHeader::pdu` from `frame_header.rs`: build a header with the
length masked to 11 bits and protocol `DlPdu`. -/
def EthercatFrameHeader.pdu (len : Nat) : EthercatFrameHeader :=
  { payload_len := len &&& LEN_MASK, protocol := .DlPdu }

/-- `EthercatFrameHeader::pack_to_slice_unchecked` from `frame_header.rs`:
`raw = payload_len | (protocol << 12)`, packed little-endian. -/
def EthercatFrameHeader.pack (h : EthercatFrameHeader) : List Nat :=
  u16LeBytes (h.payload_len ||| (h.protocol.code <<< 12))

/-- `EthercatFrameHeader::unpack_from_slice` from `frame_header.rs`: read a
little-endian `u16`, mask the low 11 bits for the length, take bits 12..15 as
the protocol (`0x01` is the only valid value). -/
def EthercatFrameHeader.unpack (b0 b1 : Nat) : Option EthercatFrameHeader :=
  let raw := u16FromLe b0 b1
  if raw >>> 12 = 0x01 then
    some { payload_len := raw &&& LEN_MASK, protocol := .DlPdu }
  else
    none

/-- `EthercatFrameHeader::header_len` = `PACKED_LEN` = 2. -/
def EthercatFrameHeader.header_len : Nat := 2

/-! ## `PduStorage::new` construction checks (`src/src/pdu_loop/storage.rs`) -/

/-- Number of set bits, mirroring `usize::count_ones` used by
`PduStorage::new`. -/
def count_ones (n : Nat) : Nat :=
  if n = 0 then 0 else n % 2 + count_ones (n / 2)
decreasing_by exact Nat.div_lt_self (Nat.pos_of_ne_zero (by assumption)) one_lt_two

/-- `MIN_DATA` from `storage.rs`: Ethernet header (14) + EtherCAT frame header
(2) + PDU header (10) + zero-length payload (0) + working counter (2) = 28.
The PDU header length (10 bytes) is modelled from the spec since
`pdu_header.rs` is not under `src/`. -/
def MIN_DATA : Nat := 14 + (2 + 10 + 0 + 2)

/-- The assertions of `PduStorage::new` from `storage.rs`: the constructor
panics unless all of these hold (`N <= u8::MAX`, `N > 0`, `DATA >= MIN_DATA`,
and `N.count_ones() == 1` whenever `N > 1`). -/
def pduStorageNewOk (N DATA : Nat) : Bool :=
  decide (N ≤ 255) && decide (0 < N) && decide (MIN_DATA ≤ DATA) &&
    (decide (N ≤ 1) || decide (count_ones N = 1))

/-! ## First-PDU lookup (`src/src/pdu_loop/frame_element/mod.rs`,
`src/src/pdu_loop/storage.rs`) -/

/-- `FIRST_PDU_EMPTY` from `frame_element/mod.rs`: sentinel with a non-zero
upper byte marking a frame with no pushed PDUs. -/
def FIRST_PDU_EMPTY : Nat := 0xff00

/-- `FrameElement::first_pdu_is` from `frame_element/mod.rs`: the 8-bit search
value, zero-extended to 16 bits, is compared with the raw `first_pdu` word. -/
def first_pdu_is (first_pdu : Nat) (search : Nat) : Bool :=
  search == first_pdu

/-- `PduStorageRef::frame_index_by_first_pdu_index` from `storage.rs`: linear
scan over all frame slots, returning the first slot whose `first_pdu` word
matches the query.  The store is abstracted to the list of per-slot
`first_pdu` words, which is all this function reads. -/
def frame_index_by_first_pdu_index (slots : List Nat) (search_pdu_idx : Nat) :
    Option Nat :=
  go slots 0
where
  go : List Nat → Nat → Option Nat
    | [], _ => none
    | fp :: rest, i =>
      if first_pdu_is fp search_pdu_idx then some i else go rest (i + 1)

/-! ## Ports (`src/src/subdevice/ports.rs`)

The `[Port; 4]` array is modelled as a list (well-formed values have length
4 with EtherCAT port numbers `0, 3, 1, 2` in that order, as built by
`Ports::new`).  Source functions that panic (`unreachable!`, unwrap of an
empty minimum) return `Option`, with `none` modelling the panic. -/

/-- `Port` from `ports.rs`.  `downstream_to : Option Nat` models
`Option<NonZeroU16>`. -/
structure Port where
  active : Bool
  dc_receive_time : Nat
  number : Nat
  downstream_to : Option Nat
  deriving Repr, DecidableEq

/-- `Port::index` from `ports.rs`: EtherCAT port number to array index.  The
source hits `unreachable!` for numbers outside `{0, 3, 1, 2}`; this is
modelled by the out-of-array value 4, on which every array access fails just
as the source's panic stops execution. -/
def Port.index (p : Port) : Nat :=
  if p.number = 0 then 0
  else if p.number = 3 then 1
  else if p.number = 1 then 2
  else if p.number = 2 then 3
  else 4

/-- `Topology` from `ports.rs`. -/
inductive Topology where
  | Passthrough
  | LineEnd
  | Fork
  | Cross
  deriving Repr, DecidableEq

/-- `Topology::is_junction` from `ports.rs`. -/
def Topology.is_junction : Topology → Bool
  | .Fork => true
  | .Cross => true
  | _ => false

/-- `Ports` tuple struct from `ports.rs`. -/
structure Ports where
  ports : List Port
  deriving Repr, DecidableEq

/-- Replace the element at index `i` (no-op when out of range), used to model
in-place writes to `self.0[i]`. -/
def modifyIdx (l : List α) (i : Nat) (f : α → α) : List α :=
  match l.get? i with
  | some x => l.set i (f x)
  | none => l

/-- `Ports::new` from `ports.rs`: build the array in EtherCAT port order
`0, 3, 1, 2` with the given active flags and `Port::default()` elsewhere. -/
def Ports.new (active0 active3 active1 active2 : Bool) : Ports :=
  { ports :=
      [ { active := active0, dc_receive_time := 0, number := 0, downstream_to := none }
      , { active := active3, dc_receive_time := 0, number := 3, downstream_to := none }
      , { active := active1, dc_receive_time := 0, number := 1, downstream_to := none }
      , { active := active2, dc_receive_time := 0, number := 2, downstream_to := none } ] }

/-- `Ports::set_receive_times` from `ports.rs`: times given in EtherCAT port
order `0 -> 3 -> 1 -> 2`, written to array indices 0..3. -/
def Ports.set_receive_times (ps : Ports) (time_p0 time_p3 time_p1 time_p2 : Nat) : Ports :=
  { ports :=
      modifyIdx (modifyIdx (modifyIdx (modifyIdx ps.ports
        0 (fun p => { p with dc_receive_time := time_p0 }))
        1 (fun p => { p with dc_receive_time := time_p3 }))
        2 (fun p => { p with dc_receive_time := time_p1 }))
        3 (fun p => { p with dc_receive_time := time_p2 }) }

/-- `Ports::active_ports` from `ports.rs`. -/
def Ports.active_ports (ps : Ports) : List Port :=
  ps.ports.filter (·.active)

/-- `Ports::open_ports` from `ports.rs`. -/
def Ports.open_ports (ps : Ports) : Nat :=
  ps.active_ports.length

/-- `Ports::entry_port` from `ports.rs`: the active port with the minimal
`dc_receive_time` (`min_by_key` keeps the first of equal minima).  The source
unwraps the result and panics when no port is active; `none` models that
panic.  The `min_by_key` fold is split out as `minByReceiveTime`. -/
def minByReceiveTime (p : Port) (rest : List Port) : Port :=
  rest.foldl (fun acc q => if q.dc_receive_time < acc.dc_receive_time then q else acc) p

def Ports.entry_port (ps : Ports) : Option Port :=
  match ps.active_ports with
  | [] => none
  | p :: rest => some (minByReceiveTime p rest)

/-- `Ports::last_port` from `ports.rs`: the last active port. -/
def Ports.last_port (ps : Ports) : Option Port :=
  ps.active_ports.getLast?

/-- `Ports::is_last_port` from `ports.rs`. -/
def Ports.is_last_port (ps : Ports) (port : Port) : Bool :=
  match ps.last_port with
  | some p => p == port
  | none => false

/-- `Ports::next_assignable_port` from `ports.rs`: cycle through the active
ports starting just after `this_port`'s array index, inspect at most four,
and return the array index of the first whose `downstream_to` is unset.
`cycle().skip(k).take(4)` over the active-port list `act` visits
`act[(k + i) % act.length]` for `i < 4` (and nothing when `act` is empty). -/
def Ports.next_assignable_port (ps : Ports) (this_port : Port) : Option Nat :=
  let act := ps.active_ports
  let candidates := (List.range 4).filterMap
    (fun i => act.get? ((this_port.index + 1 + i) % act.length))
  (candidates.find? (fun next_port => next_port.downstream_to.isNone)).map Port.index

/-- `Ports::assign_next_downstream_port` from `ports.rs`: link a downstream
device to the next open port after the entry port, returning the chosen port's
EtherCAT number together with the updated ports.  `none` covers both the
source's `None` return and the panic inside `entry_port`; at the single call
site in `dc.rs` both end in the same `fmt::unwrap_opt!` panic. -/
def Ports.assign_next_downstream_port (ps : Ports) (downstream_subdevice_index : Nat) :
    Option (Nat × Ports) :=
  match ps.entry_port with
  | none => none
  | some entry_port =>
    match ps.next_assignable_port entry_port with
    | none => none
    | some next_port_index =>
      match ps.ports.get? next_port_index with
      | none => none
      | some next_port =>
        some (next_port.number,
          { ports := ps.ports.set next_port_index
              { next_port with downstream_to := some downstream_subdevice_index } })

/-- `Ports::port_assigned_to` from `ports.rs`: the active port whose
`downstream_to` equals the given sub-device index. -/
def Ports.port_assigned_to (ps : Ports) (subdevice_index : Nat) : Option Port :=
  ps.active_ports.find? (fun port => port.downstream_to == some subdevice_index)

/-- `Ports::topology` from `ports.rs`: classification by the number of open
ports; `none` models the `unreachable!` panic for any other count (zero active
ports included). -/
def Ports.topology (ps : Ports) : Option Topology :=
  match ps.open_ports with
  | 1 => some .LineEnd
  | 2 => some .Passthrough
  | 3 => some .Fork
  | 4 => some .Cross
  | _ => none

/-- First element of a `Nat` iterator maximum (`Iterator::max`). -/
def natListMax : List Nat → Option Nat
  | [] => none
  | x :: xs => some (xs.foldl Nat.max x)

/-- `Iterator::min` over a `Nat` list. -/
def natListMin : List Nat → Option Nat
  | [] => none
  | x :: xs => some (xs.foldl Nat.min x)

/-- `Ports::total_propagation_time` from `ports.rs`: `max - min` (saturating)
of the active ports' receive times, filtered to strictly positive results. -/
def Ports.total_propagation_time (ps : Ports) : Option Nat :=
  let times := ps.ports.filterMap
    (fun port => if port.active then some port.dc_receive_time else none)
  (((natListMax times).bind
      (fun mx => (natListMin times).map (fun mn => mx - mn))).filter (fun t => 0 < t))

/-- Adjacent pairs of a list, modelling `slice::windows(2)`. -/
def windowPairs : List α → List (α × α)
  | a :: b :: rest => (a, b) :: windowPairs (b :: rest)
  | _ => []

/-- `Ports::intermediate_propagation_time_to` from `ports.rs`: sum of
saturating deltas over adjacent port pairs in array order, up to (excluding
pairs starting at or after) the target port's index, counting only pairs with
both ports active. -/
def Ports.intermediate_propagation_time_to (ps : Ports) (port : Port) : Nat :=
  ((windowPairs ps.ports).map (fun ab =>
      if ab.1.index ≥ port.index then 0
      else if ab.1.active && ab.2.active then
        ab.2.dc_receive_time - ab.1.dc_receive_time
      else 0)).sum

/-- `Ports::propagation_time_to` from `ports.rs`: `max - min` of receive times
over active ports whose array index lies between the entry port's index and
the target's, filtered to strictly positive results.  `none` from an inactive
entry port models the panic inside `entry_port` (unreachable at the `dc.rs`
call sites, which have already classified the parent's topology). -/
def Ports.propagation_time_to (ps : Ports) (this_port : Port) : Option Nat :=
  match ps.entry_port with
  | none => none
  | some entry_port =>
    let times := (ps.active_ports.filter
        (fun port => entry_port.index ≤ port.index && port.index ≤ this_port.index)).map
      (·.dc_receive_time)
    (((natListMax times).bind
        (fun mx => (natListMin times).map (fun mn => mx - mn))).filter (fun t => 0 < t))

/-! ## Sub-devices and the DC engine (`src/src/dc.rs`) -/

/-- The fields of `SubDevice` used by the DC engine.  The struct itself lives
in the sub-device module that is not under `src/`; its fields are taken from
the spec's sub-device record (§3) and from the accesses in `dc.rs` and the
`dc.rs` tests.  `dc_support` abbreviates `dc_support().any()`. -/
structure SubDevice where
  configured_address : Nat
  index : Nat
  ports : Ports
  dc_receive_time : Nat
  parent_index : Option Nat
  propagation_delay : Nat
  dc_support : Bool
  deriving Repr, DecidableEq

/-- Modelled from the spec: `SubDevice::is_child_of` is not under `src/`
(only its callers in `dc.rs` are).  Per §4.4.2/§4.4.3 a device hangs off its
parent as a child when the parent port assigned to it is an intermediate open
port of the junction; the parent's *last* open port instead continues the
chain.  So: the parent has a port assigned to this device and that port is
not the parent's last open port.  This reproduces the `dc.rs` fork and cross
test vectors. -/
def SubDevice.is_child_of (s parent : SubDevice) : Bool :=
  match parent.ports.port_assigned_to s.index with
  | some p => !(parent.ports.is_last_port p)
  | none => false

/-- Errors of the DC engine.  `Assertion` models a `fmt::unwrap!`,
`fmt::unwrap_opt!` or `unreachable!` panic. -/
inductive DcError where
  | Topology
  | Internal
  | Assertion
  deriving Repr, DecidableEq

/-- The backwards junction search inside `find_subdevice_parent`
(`parents_it.find(|subdevice| subdevice.ports.topology().is_junction())`);
`.error` models the `unreachable!` panic inside `topology()` for a device
with no active ports. -/
def findJunction : List SubDevice → Except DcError (Option SubDevice)
  | [] => .ok none
  | s :: rest =>
    match s.ports.topology with
    | none => .error .Assertion
    | some t => if t.is_junction then .ok (some s) else findJunction rest

/-- `find_subdevice_parent` from `dc.rs`: no parent for the first device;
otherwise the previous device, or — when that device is a `LineEnd` — the
closest preceding junction (`Fork`/`Cross`), with `Error::Topology` when none
exists. -/
def find_subdevice_parent (parents : List SubDevice) (_subdevice : SubDevice) :
    Except DcError (Option Nat) :=
  if parents.isEmpty then .ok none
  else
    match parents.reverse with
    | [] => .error .Internal
    | parent :: parents_it =>
      match parent.ports.topology with
      | none => .error .Assertion
      | some t =>
        if t = .LineEnd then
          match findJunction parents_it with
          | .error e => .error e
          | .ok none => .error .Topology
          | .ok (some split_point) => .ok (some split_point.index)
        else
          .ok (some parent.index)

/-- `u32::saturating_add`. -/
def satAdd32 (a b : Nat) : Nat :=
  min (a + b) (2 ^ 32 - 1)

/-- `configure_subdevice_offsets` from `dc.rs`: compute this device's
propagation-delay contribution from its parent's topology, add it
(saturating) to the running accumulator and store the accumulator as the
device's propagation delay.  Returns the updated device and accumulator.
`debug_print_ports` evaluates `subdevice.ports.topology()` even with logging
compiled out, so a device with no active ports panics first (`.error`). -/
def configure_subdevice_offsets (subdevice : SubDevice) (parents : List SubDevice)
    (delay_accum : Nat) : Except DcError (SubDevice × Nat) :=
  match subdevice.ports.topology with
  | none => .error .Assertion
  | some _ =>
    match subdevice.parent_index.bind
        (fun parent_index => parents.find? (fun parent => parent.index == parent_index)) with
    | none => .ok (subdevice, delay_accum)
    | some parent =>
      match parent.ports.port_assigned_to subdevice.index with
      | none => .error .Assertion
      | some parent_port =>
        match subdevice.ports.entry_port with
        | none => .error .Assertion
        | some _this_port =>
          match parent.ports.topology with
          | none => .error .Assertion
          | some parent_topology =>
            let parent_prop_time := (parent.ports.total_propagation_time).getD 0
            let this_prop_time := (subdevice.ports.total_propagation_time).getD 0
            let parent_delta := parent_prop_time - this_prop_time
            let propagation_delay :=
              match parent_topology with
              | .Passthrough => parent_delta / 2
              | .Fork =>
                if subdevice.is_child_of parent then
                  ((parent.ports.propagation_time_to parent_port).getD 0 - this_prop_time) / 2
                else
                  parent_delta / 2
              | .Cross =>
                if subdevice.is_child_of parent then
                  (parent.ports.intermediate_propagation_time_to parent_port - this_prop_time) / 2
                else
                  parent_prop_time - delay_accum
              | .LineEnd => 0
            let delay_accum2 := satAdd32 delay_accum propagation_delay
            .ok ({ subdevice with propagation_delay := delay_accum2 }, delay_accum2)

/-- The parent-port assignment step of `assign_parent_relationships`: find the
first device in `parents` whose `index` equals `parent_idx` and assign its
next downstream port to `child_index`.  `none` models the
`fmt::unwrap_opt!` panics (parent not found, index zero handled by the
caller, or no free port). -/
def assignDownstreamInParents (parents : List SubDevice) (parent_idx child_index : Nat) :
    Option (List SubDevice) :=
  match parents with
  | [] => none
  | p :: rest =>
    if p.index == parent_idx then
      match p.ports.assign_next_downstream_port child_index with
      | some (_port_number, ports2) => some ({ p with ports := ports2 } :: rest)
      | none => none
    else
      match assignDownstreamInParents rest parent_idx child_index with
      | some d2 => some (p :: d2)
      | none => none

/-- The port-assignment part of the `assign_parent_relationships` loop body
from `dc.rs`: when a parent index was found, assign the parent's next open
port to this device (panicking — `.error .Assertion` — when the device index
is zero, the parent cannot be found, or the parent has no free port).
`assignStep` below is one full loop iteration: parent search, port
assignment, then (for DC-capable devices) the propagation-delay computation;
it returns the updated prefix, the processed device and the new
accumulator. -/
def assignPorts (done : List SubDevice) (s : SubDevice) (pidx : Option Nat) :
    Except DcError (List SubDevice) :=
  match pidx with
  | none => .ok done
  | some parent_idx =>
    if s.index = 0 then .error .Assertion
    else
      match assignDownstreamInParents done parent_idx s.index with
      | some d => .ok d
      | none => .error .Assertion

def assignStep (done : List SubDevice) (s : SubDevice) (delay_accum : Nat) :
    Except DcError (List SubDevice × SubDevice × Nat) :=
  match find_subdevice_parent done s with
  | .error e => .error e
  | .ok pidx =>
    match assignPorts done s pidx with
    | .error e => .error e
    | .ok done1 =>
      match (if s.dc_support then
               configure_subdevice_offsets { s with parent_index := pidx } done1 delay_accum
             else .ok ({ s with parent_index := pidx }, delay_accum)) with
      | .error e => .error e
      | .ok (s2, accum2) => .ok (done1, s2, accum2)

/-- The loop of `assign_parent_relationships` from `dc.rs`, processing the
remaining devices one by one.  `done` is the already-processed prefix (the
`parents` slice of `split_at_mut`), `delay_accum` the running delay
accumulator. -/
def assignLoop :
    List SubDevice → List SubDevice → Nat → Except DcError (List SubDevice)
  | done, [], _ => .ok done
  | done, s :: rest, delay_accum =>
    match assignStep done s delay_accum with
    | .error e => .error e
    | .ok (done1, s2, accum2) => assignLoop (done1 ++ [s2]) rest accum2

/-- `assign_parent_relationships` from `dc.rs`. -/
def assign_parent_relationships (subdevices : List SubDevice) :
    Except DcError (List SubDevice) :=
  assignLoop [] subdevices 0

/-! ## Concrete fixtures -/

/-- The `ports` helper of the `dc.rs` tests: active flags and receive times
in EtherCAT port order `0, 3, 1, 2`. -/
def mkPorts (a0 : Bool) (t0 : Nat) (a3 : Bool) (t3 : Nat) (a1 : Bool) (t1 : Nat)
    (a2 : Bool) (t2 : Nat) : Ports :=
  (Ports.new a0 a3 a1 a2).set_receive_times t0 t3 t1 t2

/-- The five-device fork fixture of the `propagation_delay_calc_fork` test in
`dc.rs`: `EK1100 (Fork) → EK1122 (Passthrough) → EL9560 (LineEnd)` on one
branch and `EK1100 → EK1914 (Passthrough) → EL1008 (LineEnd)` on the other,
with the port receive times of the repository's test data.  All devices
support DC (`DcSupport::Bits64`). -/
def forkSubdevices : List SubDevice :=
  [ { configured_address := 0x1000, index := 0
    , ports := mkPorts true 3380373882 false 1819436374 true 3380374482 true 3380375762
    , dc_receive_time := 402812332410, parent_index := none
    , propagation_delay := 0, dc_support := true }
  , { configured_address := 0x1001, index := 1
    , ports := mkPorts true 3384116362 false 1819436374 false 1717989224 true 3384116672
    , dc_receive_time := 402816074890, parent_index := none
    , propagation_delay := 0, dc_support := true }
  , { configured_address := 0x1002, index := 2
    , ports := mkPorts true 3383862982 false 1819436374 false 1717989224 false 0
    , dc_receive_time := 0, parent_index := none
    , propagation_delay := 0, dc_support := true }
  , { configured_address := 0x1003, index := 3
    , ports := mkPorts true 3373883962 false 1819436374 true 3373884272 false 0
    , dc_receive_time := 0, parent_index := none
    , propagation_delay := 0, dc_support := true }
  , { configured_address := 0x1004, index := 4
    , ports := mkPorts true 3375060602 false 1819436374 false 1717989224 false 0
    , dc_receive_time := 0, parent_index := none
    , propagation_delay := 0, dc_support := true } ]

/-! ## Claim theorems -/

/-- Claim C1: for the five-device fork topology of seed scenario 4, running
`assign_parent_relationships` over the sub-device list computes
`propagation_delay = [0, 145, 300, 1085, 1240]` ns and
`parent_index = [None, Some 0, Some 1, Some 0, Some 3]` in discovery order. -/
theorem c1_dc_fork_propagation :
    (assign_parent_relationships forkSubdevices).map
      (fun l => (l.map SubDevice.propagation_delay, l.map SubDevice.parent_index))
    = .ok ([0, 145, 300, 1085, 1240], [none, some 0, some 1, some 0, some 3]) := by
  rfl

/-- Claim C9: packing an `EthercatFrameHeader` with `payload_len = 0x28` and
protocol `DLPDU` produces exactly the little-endian bytes `[0x28, 0x10]` (the
11-bit length in the low bits and the protocol nibble `0x1` in bits 12..15 of
the 16-bit word). -/
theorem c9_frame_header_pack :
    EthercatFrameHeader.pack { payload_len := 0x28, protocol := .DlPdu } = [0x28, 0x10] ∧
    EthercatFrameHeader.pdu 0x28 = { payload_len := 0x28, protocol := .DlPdu } := by
  decide

/-! ### Claim C8: `PduStorage::new` construction checks -/

theorem count_ones_eq_zero_iff (n : Nat) : count_ones n = 0 ↔ n = 0 := by
  induction n using Nat.strong_induction_on with
  | _ n ih =>
    by_cases h0 : n = 0
    · simp [h0, count_ones]
    · rw [count_ones, if_neg h0]
      constructor
      · intro h
        obtain ⟨hm, hd⟩ := Nat.add_eq_zero.mp h
        have hhalf : n / 2 = 0 :=
          (ih (n / 2) (Nat.div_lt_self (Nat.pos_of_ne_zero h0) one_lt_two)).mp hd
        have hlt : n < 2 := (Nat.div_eq_zero_iff two_pos).mp hhalf
        interval_cases n
        · exact absurd rfl h0
        · simp at hm
      · intro h; exact absurd h h0

theorem count_ones_two_pow (k : Nat) : count_ones (2 ^ k) = 1 := by
  induction k with
  | zero => simp [count_ones]
  | succ k ih =>
    have hne : (2 : Nat) ^ (k + 1) ≠ 0 := (Nat.two_pow_pos (k + 1)).ne.symm
    have h2 : (2 : Nat) ^ (k + 1) = 2 ^ k * 2 := by ring
    rw [count_ones, if_neg hne, h2, Nat.mul_mod_left (2 ^ k) 2,
      Nat.mul_div_cancel _ two_pos, ih]

theorem count_ones_eq_one_iff (n : Nat) : count_ones n = 1 ↔ ∃ k, n = 2 ^ k := by
  induction n using Nat.strong_induction_on with
  | _ n ih =>
    constructor
    · intro h
      have h0 : n ≠ 0 := by
        intro e
        rw [e] at h
        simp [count_ones] at h
      rw [count_ones, if_neg h0] at h
      have hmod : n % 2 = 0 ∨ n % 2 = 1 := Nat.mod_two_eq_zero_or_one n
      rcases hmod with hm | hm
      · rw [hm, Nat.zero_add] at h
        obtain ⟨k, hk⟩ :=
          (ih (n / 2) (Nat.div_lt_self (Nat.pos_of_ne_zero h0) one_lt_two)).mp h
        refine ⟨k + 1, ?_⟩
        have := Nat.div_add_mod n 2
        omega
      · rw [hm] at h
        have hd : count_ones (n / 2) = 0 := by omega
        have hhalf : n / 2 = 0 := (count_ones_eq_zero_iff (n / 2)).mp hd
        have hlt : n < 2 := (Nat.div_eq_zero_iff two_pos).mp hhalf
        refine ⟨0, ?_⟩
        omega
    · rintro ⟨k, rfl⟩
      exact count_ones_two_pow k

/-- Counterexample to claim C8 as stated: `N = 256` is a power of two with
`1 ≤ N ≤ 256` and `DATA = 28 ≥ 28`, yet `PduStorage::new` panics, because its
first assertion requires `N <= u8::MAX`, i.e. `N ≤ 255`. -/
theorem c8_counterexample :
    count_ones 256 = 1 ∧ MIN_DATA ≤ 28 ∧ pduStorageNewOk 256 28 = false := by
  refine ⟨?_, by decide, by simp [pduStorageNewOk]⟩
  have h : (256 : Nat) = 2 ^ 8 := by norm_num
  rw [h]
  exact count_ones_two_pow 8

/-- Claim C8 (amended): constructing a `PduStorage` pool panics only for
contract violations stated at construction: it accepts exactly the slot
counts `N` that are powers of two with `1 ≤ N ≤ 255` (hence `N ≤ 128`)
together with `DATA ≥ 28`, and panics for a non-power-of-two `N`, for
`N = 0`, for `N ≥ 256`, or for `DATA < 28`. -/
theorem c8_pool_construction (N DATA : Nat) :
    pduStorageNewOk N DATA = true ↔ ((∃ k, N = 2 ^ k) ∧ N ≤ 255 ∧ MIN_DATA ≤ DATA) := by
  simp only [pduStorageNewOk, Bool.and_eq_true, Bool.or_eq_true, decide_eq_true_eq]
  constructor
  · rintro ⟨⟨⟨h1, h2⟩, h3⟩, h4 | h4⟩
    · have hN : N = 1 := by omega
      exact ⟨⟨0, by omega⟩, h1, h3⟩
    · exact ⟨(count_ones_eq_one_iff N).mp h4, h1, h3⟩
  · rintro ⟨⟨k, rfl⟩, hN, hD⟩
    exact ⟨⟨⟨hN, Nat.two_pow_pos k⟩, hD⟩, Or.inr (count_ones_two_pow k)⟩

/-! ### Claim C6: first-PDU lookup -/

theorem first_pdu_scan_spec (q : Nat) (slots : List Nat) : ∀ i : Nat,
    (∀ r, frame_index_by_first_pdu_index.go q slots i = some r →
      i ≤ r ∧ slots.get? (r - i) = some q ∧ ∀ j, j < r - i → slots.get? j ≠ some q) ∧
    (frame_index_by_first_pdu_index.go q slots i = none → q ∉ slots) := by
  induction slots with
  | nil =>
    intro i
    refine ⟨fun r h => by simp [frame_index_by_first_pdu_index.go] at h, fun _ => by simp⟩
  | cons fp rest ih =>
    intro i
    constructor
    · intro r h
      by_cases hm : first_pdu_is fp q
      · rw [frame_index_by_first_pdu_index.go, if_pos hm] at h
        have hr : r = i := by injection h with h2; omega
        subst hr
        have hfp : fp = q := by
          have := of_decide_eq_true (by simpa [first_pdu_is] using hm)
          omega
        refine ⟨Nat.le_refl _, ?_, ?_⟩
        · simp [hfp]
        · intro j hj
          omega
      · rw [frame_index_by_first_pdu_index.go, if_neg hm] at h
        obtain ⟨hle, hget, hmin⟩ := (ih (i + 1)).1 r h
        have hsub : r - i = (r - (i + 1)) + 1 := by omega
        refine ⟨by omega, ?_, ?_⟩
        · rw [hsub]
          simpa using hget
        · intro j hj
          match j with
          | 0 =>
            intro hc
            have hfpq : fp = q := by
              simpa using hc
            apply hm
            simp [first_pdu_is, hfpq]
          | j' + 1 =>
            have : j' < r - (i + 1) := by omega
            simpa using hmin j' this
    · intro h
      by_cases hm : first_pdu_is fp q
      · rw [frame_index_by_first_pdu_index.go, if_pos hm] at h
        exact absurd h (by simp)
      · rw [frame_index_by_first_pdu_index.go, if_neg hm] at h
        have hnr := (ih (i + 1)).2 h
        intro hmem
        rcases List.mem_cons.mp hmem with he | he
        · apply hm
          simp [first_pdu_is, he]
        · exact hnr he

/-- Claim C6: for every 8-bit query value `q`, the first-PDU lookup over the
slot array returns a slot index `i` iff slot `i`'s `first_pdu` field equals
the 16-bit zero-extension of `q` (it returns the first such slot); a slot
holding the sentinel `0xFF00` never matches any 8-bit query, `q = 0` and
`q = 0xFF` included. -/
theorem c6_first_pdu_lookup (slots : List Nat) (q : Nat) (hq : q < 256) :
    ((frame_index_by_first_pdu_index slots q).isSome ↔ q ∈ slots) ∧
    (∀ i, frame_index_by_first_pdu_index slots q = some i →
      slots.get? i = some q ∧ ∀ j, j < i → slots.get? j ≠ some q) ∧
    first_pdu_is FIRST_PDU_EMPTY q = false := by
  have hspec := first_pdu_scan_spec q slots 0
  refine ⟨?_, ?_, ?_⟩
  · constructor
    · intro hs
      rw [Option.isSome_iff_exists] at hs
      obtain ⟨r, hr⟩ := hs
      obtain ⟨_, hget, _⟩ := hspec.1 r hr
      exact List.get?_mem (by simpa using hget)
    · intro hmem
      rcases hcase : frame_index_by_first_pdu_index slots q with _ | r
      · exact absurd hmem (hspec.2 hcase)
      · simp
  · intro i hi
    obtain ⟨_, hget, hmin⟩ := hspec.1 i hi
    exact ⟨by simpa using hget, fun j hj => by simpa using hmin j (by omega)⟩
  · simp only [first_pdu_is, FIRST_PDU_EMPTY]
    have : q ≠ 0xff00 := by omega
    simpa using this

/-- Witness for C6 at `q = 123` over a store whose first slot is empty
(sentinel `0xFF00`) and whose second slot's first PDU is 123. -/
theorem c6_first_pdu_lookup_witness :
    123 < 256 ∧
    (((frame_index_by_first_pdu_index [0xff00, 123] 123).isSome ↔ 123 ∈ [0xff00, 123]) ∧
      (∀ i, frame_index_by_first_pdu_index [0xff00, 123] 123 = some i →
        [0xff00, 123].get? i = some 123 ∧ ∀ j, j < i → [0xff00, 123].get? j ≠ some 123) ∧
      first_pdu_is FIRST_PDU_EMPTY 123 = false) :=
  ⟨by decide, c6_first_pdu_lookup [0xff00, 123] 123 (by decide)⟩

/-! ### Claim C10: port classification totality -/

theorem minByReceiveTime_spec (rest : List Port) : ∀ p : Port,
    minByReceiveTime p rest ∈ p :: rest ∧
    ∀ r ∈ p :: rest, (minByReceiveTime p rest).dc_receive_time ≤ r.dc_receive_time := by
  induction rest with
  | nil =>
    intro p
    refine ⟨by simp [minByReceiveTime], ?_⟩
    intro r hr
    rw [List.mem_singleton] at hr
    subst hr
    simp [minByReceiveTime]
  | cons q rest ih =>
    intro p
    by_cases hc : q.dc_receive_time < p.dc_receive_time
    · have hfold : minByReceiveTime p (q :: rest) = minByReceiveTime q rest := by
        simp [minByReceiveTime, hc]
      obtain ⟨hmem, hmin⟩ := ih q
      refine ⟨?_, ?_⟩
      · rw [hfold]
        exact List.mem_cons_of_mem _ hmem
      · intro r hr
        rw [hfold]
        have hq := hmin q (List.mem_cons_self _ _)
        rcases List.mem_cons.mp hr with he | hr2
        · subst he
          omega
        · exact hmin r hr2
    · have hfold : minByReceiveTime p (q :: rest) = minByReceiveTime p rest := by
        simp [minByReceiveTime, hc]
      obtain ⟨hmem, hmin⟩ := ih p
      refine ⟨?_, ?_⟩
      · rw [hfold]
        rcases List.mem_cons.mp hmem with he | he
        · simp [he]
        · exact List.mem_cons_of_mem _ (List.mem_cons_of_mem _ he)
      · intro r hr
        rw [hfold]
        have hp := hmin p (List.mem_cons_self _ _)
        rcases List.mem_cons.mp hr with he | hr2
        · subst he
          exact hp
        · rcases List.mem_cons.mp hr2 with he | hr3
          · subst he
            omega
          · exact hmin r (List.mem_cons_of_mem _ hr3)

/-- Claim C10: the port-classification interface is total only for devices
with at least one active port.  For 1, 2, 3 or 4 active ports `topology()`
returns `LineEnd`, `Passthrough`, `Fork` or `Cross` respectively, and
`entry_port()` returns the active port with the smallest `dc_receive_time`;
with zero active ports both `topology()` (the `unreachable!` branch, modelled
by `none`) and `entry_port()` (unwrap of an empty minimum, modelled by
`none`) panic at runtime. -/
theorem c10_port_classification (p : Ports) :
    (p.open_ports = 0 → p.topology = none ∧ p.entry_port = none) ∧
    (p.open_ports = 1 → p.topology = some .LineEnd) ∧
    (p.open_ports = 2 → p.topology = some .Passthrough) ∧
    (p.open_ports = 3 → p.topology = some .Fork) ∧
    (p.open_ports = 4 → p.topology = some .Cross) ∧
    (p.open_ports ≠ 0 → ∃ q, p.entry_port = some q ∧ q ∈ p.active_ports ∧
      ∀ r ∈ p.active_ports, q.dc_receive_time ≤ r.dc_receive_time) := by
  refine ⟨?_, ?_, ?_, ?_, ?_, ?_⟩
  · intro h
    have hnil : p.active_ports = [] := List.length_eq_zero.mp h
    exact ⟨by simp [Ports.topology, Ports.open_ports, hnil],
      by simp [Ports.entry_port, hnil]⟩
  · intro h
    simp [Ports.topology, h]
  · intro h
    simp [Ports.topology, h]
  · intro h
    simp [Ports.topology, h]
  · intro h
    simp [Ports.topology, h]
  · intro h
    rcases hap : p.active_ports with _ | ⟨a, rest⟩
    · exact absurd (by simp [Ports.open_ports, hap]) h
    · obtain ⟨hmem, hmin⟩ := minByReceiveTime_spec rest a
      refine ⟨minByReceiveTime a rest, by simp [Ports.entry_port, hap], ?_, ?_⟩
      · simpa [hap] using hmem
      · intro r hr
        exact hmin r (by simpa [hap] using hr)

/-- Witness for C10: a fork (three active ports, entry port 0 with the
smallest receive time) and a device with no active ports. -/
theorem c10_port_classification_witness :
    ((mkPorts false 11 false 12 false 13 false 14).open_ports = 0 →
      (mkPorts false 11 false 12 false 13 false 14).topology = none ∧
      (mkPorts false 11 false 12 false 13 false 14).entry_port = none) ∧
    ((mkPorts true 1234 true 1334 true 1434 false 0).open_ports = 3 →
      (mkPorts true 1234 true 1334 true 1434 false 0).topology = some .Fork) ∧
    ((mkPorts false 11 false 12 false 13 false 14).open_ports = 0 ∧
      (mkPorts true 1234 true 1334 true 1434 false 0).open_ports = 3) ∧
    ((mkPorts true 1234 true 1334 true 1434 false 0).open_ports ≠ 0 →
      ∃ q, (mkPorts true 1234 true 1334 true 1434 false 0).entry_port = some q ∧
        q ∈ (mkPorts true 1234 true 1334 true 1434 false 0).active_ports ∧
        ∀ r ∈ (mkPorts true 1234 true 1334 true 1434 false 0).active_ports,
          q.dc_receive_time ≤ r.dc_receive_time) :=
  ⟨(c10_port_classification (mkPorts false 11 false 12 false 13 false 14)).1,
    (c10_port_classification (mkPorts true 1234 true 1334 true 1434 false 0)).2.2.2.1,
    ⟨by decide, by decide⟩,
    (c10_port_classification (mkPorts true 1234 true 1334 true 1434 false 0)).2.2.2.2.2⟩

/-! ### Claim C7: propagation delay grows along parent links -/

/-- The fields of a sub-device that the delay bookkeeping of
`assign_parent_relationships` reads: index, propagation delay, parent index
and DC support.  Port assignment only changes `ports`, leaving this
projection fixed. -/
def SubDevice.stable (d : SubDevice) : Nat × Nat × Option Nat × Bool :=
  (d.index, d.propagation_delay, d.parent_index, d.dc_support)

theorem stable_fields {a b : SubDevice} (h : a.stable = b.stable) :
    a.index = b.index ∧ a.propagation_delay = b.propagation_delay ∧
    a.parent_index = b.parent_index ∧ a.dc_support = b.dc_support := by
  simp only [SubDevice.stable, Prod.mk.injEq] at h
  exact ⟨h.1, h.2.1, h.2.2.1, h.2.2.2⟩

theorem stable_eq_transfer {l1 l2 : List SubDevice}
    (hmap : l2.map SubDevice.stable = l1.map SubDevice.stable) :
    ∀ p ∈ l2, ∃ q ∈ l1, q.stable = p.stable := by
  intro p hp
  have hm : p.stable ∈ l2.map SubDevice.stable := List.mem_map_of_mem _ hp
  rw [hmap] at hm
  obtain ⟨q, hq, he⟩ := List.mem_map.mp hm
  exact ⟨q, hq, he⟩

theorem assignDownstream_stable (parent_idx child_index : Nat) :
    ∀ parents parents2,
      assignDownstreamInParents parents parent_idx child_index = some parents2 →
      parents2.map SubDevice.stable = parents.map SubDevice.stable := by
  intro parents
  induction parents with
  | nil =>
    intro parents2 h
    simp [assignDownstreamInParents] at h
  | cons p rest ih =>
    intro parents2 h
    rw [assignDownstreamInParents] at h
    by_cases hp : p.index == parent_idx
    · rw [if_pos hp] at h
      cases hassign : p.ports.assign_next_downstream_port child_index with
      | none =>
        rw [hassign] at h
        simp at h
      | some pr =>
        obtain ⟨n, ports2⟩ := pr
        rw [hassign] at h
        simp only [Option.some.injEq] at h
        subst h
        simp [SubDevice.stable]
    · rw [if_neg hp] at h
      cases hrec : assignDownstreamInParents rest parent_idx child_index with
      | none =>
        rw [hrec] at h
        simp at h
      | some d2 =>
        rw [hrec] at h
        simp only [Option.some.injEq] at h
        subst h
        simp [ih d2 hrec]

theorem findJunction_mem : ∀ (l : List SubDevice) (sp : SubDevice),
    findJunction l = .ok (some sp) → sp ∈ l := by
  intro l
  induction l with
  | nil =>
    intro sp h
    simp [findJunction] at h
  | cons s rest ih =>
    intro sp h
    rw [findJunction] at h
    split at h
    · exact absurd h (by simp)
    · split at h
      · simp only [Except.ok.injEq, Option.some.injEq] at h
        subst h
        exact List.mem_cons_self _ _
      · exact List.mem_cons_of_mem _ (ih sp h)

theorem find_subdevice_parent_mem (parents : List SubDevice) (s : SubDevice) (j : Nat)
    (h : find_subdevice_parent parents s = .ok (some j)) :
    ∃ p ∈ parents, p.index = j := by
  rw [find_subdevice_parent] at h
  split at h
  · simp at h
  · split at h
    · simp at h
    · rename_i parent parents_it hrev
      split at h
      · simp at h
      · split at h
        · split at h
          · simp at h
          · simp at h
          · rename_i sp hj
            simp only [Except.ok.injEq, Option.some.injEq] at h
            have hmem : sp ∈ parents := by
              have h1 : sp ∈ parents.reverse := by
                rw [hrev]
                exact List.mem_cons_of_mem _ (findJunction_mem _ _ hj)
              exact List.mem_reverse.mp h1
            exact ⟨sp, hmem, h⟩
        · have hmem : parent ∈ parents := by
            have h1 : parent ∈ parents.reverse := by
              rw [hrev]
              exact List.mem_cons_self _ _
            exact List.mem_reverse.mp h1
          simp only [Except.ok.injEq, Option.some.injEq] at h
          exact ⟨parent, hmem, h⟩

theorem find_index_append_left (f : SubDevice → Bool) :
    ∀ (l1 l2 : List SubDevice) (p : SubDevice),
      l1.find? f = some p → (l1 ++ l2).find? f = some p := by
  intro l1
  induction l1 with
  | nil =>
    intro l2 p h
    simp at h
  | cons a l1' ih =>
    intro l2 p h
    rw [List.find?] at h
    cases hf : f a with
    | true =>
      rw [hf] at h
      simp only [Option.some.injEq] at h
      subst h
      rw [List.cons_append, List.find?_cons_of_pos _ hf]
    | false =>
      rw [hf] at h
      rw [List.cons_append, List.find?_cons_of_neg _ (by simp [hf])]
      exact ih l2 p h

theorem find_index_stable_mono (j : Nat) :
    ∀ (l1 l2 : List SubDevice) (tail : List (Nat × Nat × Option Nat × Bool)),
      l2.map SubDevice.stable = l1.map SubDevice.stable ++ tail →
      ∀ p, l1.find? (fun d => d.index == j) = some p →
        ∃ q, l2.find? (fun d => d.index == j) = some q ∧ q.stable = p.stable := by
  intro l1
  induction l1 with
  | nil =>
    intro l2 tail hmap p hp
    simp at hp
  | cons a l1' ih =>
    intro l2 tail hmap p hp
    cases l2 with
    | nil =>
      simp at hmap
    | cons b l2' =>
      simp only [List.map_cons, List.cons_append, List.cons.injEq] at hmap
      obtain ⟨hb, hrest⟩ := hmap
      have hba : b.index = a.index := (stable_fields hb).1
      rw [List.find?] at hp
      cases hf : (a.index == j) with
      | true =>
        rw [hf] at hp
        simp only [Option.some.injEq] at hp
        subst hp
        refine ⟨b, ?_, hb⟩
        have hbf : (b.index == j) = true := by
          rw [hba]
          exact hf
        exact List.find?_cons_of_pos _ hbf
      | false =>
        rw [hf] at hp
        obtain ⟨q, hq, hqs⟩ := ih l2' tail hrest p hp
        refine ⟨q, ?_, hqs⟩
        have hbf : (b.index == j) = false := by
          rw [hba]
          exact hf
        rw [List.find?_cons_of_neg _ (by simp [hbf])]
        exact hq

theorem le_satAdd32 (a b : Nat) (ha : a ≤ 2 ^ 32 - 1) : a ≤ satAdd32 a b := by
  simp only [satAdd32]
  omega

theorem satAdd32_le (a b : Nat) : satAdd32 a b ≤ 2 ^ 32 - 1 :=
  Nat.min_le_right _ _

theorem find_index_isSome_of_mem {l : List SubDevice} {p : SubDevice} (hp : p ∈ l)
    {j : Nat} (hidx : p.index = j) :
    ∃ q, l.find? (fun d => d.index == j) = some q := by
  induction l with
  | nil => exact absurd hp (List.not_mem_nil p)
  | cons a rest ih =>
    by_cases ha : (a.index == j)
    · exact ⟨a, List.find?_cons_of_pos _ ha⟩
    · rcases List.mem_cons.mp hp with he | hm
      · subst he
        exact absurd (by simp [hidx]) ha
      · obtain ⟨q, hq⟩ := ih hm
        exact ⟨q, by rw [List.find?_cons_of_neg _ (by simp_all)]; exact hq⟩

/-- The two successful outcomes of `configure_subdevice_offsets`: either the
parent lookup failed and nothing changes, or a parent was found, the
accumulator grows by the (saturating) contribution and the device's delay is
set to the new accumulator. -/
theorem configure_cases (s : SubDevice) (parents : List SubDevice) (accum : Nat)
    (s2 : SubDevice) (accum2 : Nat)
    (h : configure_subdevice_offsets s parents accum = .ok (s2, accum2)) :
    (s2 = s ∧ accum2 = accum ∧
      s.parent_index.bind
        (fun parent_index => parents.find? (fun parent => parent.index == parent_index))
        = none) ∨
    (∃ parent c,
      s.parent_index.bind
        (fun parent_index => parents.find? (fun parent => parent.index == parent_index))
        = some parent ∧
      accum2 = satAdd32 accum c ∧ s2 = { s with propagation_delay := accum2 }) := by
  rw [configure_subdevice_offsets] at h
  split at h
  · simp at h
  · split at h
    · rename_i hfind
      simp only [Except.ok.injEq, Prod.mk.injEq] at h
      exact Or.inl ⟨h.1.symm, h.2.symm, hfind⟩
    · rename_i parent hfind
      split at h
      · simp at h
      · split at h
        · simp at h
        · split at h
          · simp at h
          · simp only [Except.ok.injEq, Prod.mk.injEq] at h
            obtain ⟨hs2, ha2⟩ := h
            refine Or.inr ⟨parent, _, hfind, ha2.symm, ?_⟩
            rw [← hs2, ha2]

/-- Sub-device `s` respects delay monotonicity towards its parent within the
list `l`: if it is DC-capable and has a parent index, the first device in `l`
carrying that index has a propagation delay no larger than `s`'s. -/
def GoodIn (s : SubDevice) (l : List SubDevice) : Prop :=
  s.dc_support = true → ∀ j, s.parent_index = some j →
    ∃ p, l.find? (fun d => d.index == j) = some p ∧
      p.propagation_delay ≤ s.propagation_delay

theorem assignStep_spec (done : List SubDevice) (s : SubDevice) (accum : Nat)
    (done1 : List SubDevice) (s2 : SubDevice) (accum2 : Nat)
    (h : assignStep done s accum = .ok (done1, s2, accum2))
    (haccM : accum ≤ 2 ^ 32 - 1)
    (hdelay : ∀ p ∈ done, p.propagation_delay ≤ accum)
    (hs0 : s.propagation_delay = 0) :
    done1.map SubDevice.stable = done.map SubDevice.stable ∧
    accum ≤ accum2 ∧ accum2 ≤ 2 ^ 32 - 1 ∧
    s2.propagation_delay ≤ accum2 ∧
    GoodIn s2 (done1 ++ [s2]) := by
  rw [assignStep] at h
  cases hfp : find_subdevice_parent done s with
  | error e =>
    rw [hfp] at h
    dsimp only [] at h
    simp at h
  | ok pidx =>
    rw [hfp] at h
    dsimp only [] at h
    cases hap : assignPorts done s pidx with
    | error e =>
      rw [hap] at h
      dsimp only [] at h
      simp at h
    | ok done1x =>
      rw [hap] at h
      dsimp only [] at h
      have hstable : done1x.map SubDevice.stable = done.map SubDevice.stable := by
        cases pidx with
        | none =>
          rw [assignPorts] at hap
          simp only [Except.ok.injEq] at hap
          rw [← hap]
        | some parent_idx =>
          rw [assignPorts] at hap
          by_cases hz : s.index = 0
          · rw [if_pos hz] at hap
            simp at hap
          · rw [if_neg hz] at hap
            cases had : assignDownstreamInParents done parent_idx s.index with
            | none =>
              rw [had] at hap
              simp at hap
            | some d =>
              rw [had] at hap
              simp only [Except.ok.injEq] at hap
              rw [← hap]
              exact assignDownstream_stable _ _ _ _ had
      have hdelay1 : ∀ p ∈ done1x, p.propagation_delay ≤ accum := by
        intro p hp
        obtain ⟨q, hq, hqs⟩ := stable_eq_transfer hstable p hp
        rw [← (stable_fields hqs).2.1]
        exact hdelay q hq
      by_cases hdc : s.dc_support
      · rw [if_pos hdc] at h
        cases hconf : configure_subdevice_offsets { s with parent_index := pidx } done1x accum with
        | error e =>
          rw [hconf] at h
          dsimp only [] at h
          simp at h
        | ok pr =>
          obtain ⟨s2x, accum2x⟩ := pr
          rw [hconf] at h
          dsimp only [] at h
          simp only [Except.ok.injEq, Prod.mk.injEq] at h
          obtain ⟨h1, h2, h3⟩ := h
          subst h1
          subst h2
          subst h3
          refine ⟨hstable, ?_⟩
          rcases configure_cases _ _ _ _ _ hconf with ⟨he, ha, hnone⟩ | ⟨parent, c, hsome, ha, he⟩
          · subst ha
            subst he
            cases pidx with
            | none =>
              refine ⟨Nat.le_refl _, haccM, le_trans (Nat.le_of_eq hs0) (Nat.zero_le _), ?_⟩
              intro _ j hj
              simp at hj
            | some j =>
              exfalso
              simp only [Option.some_bind] at hnone
              obtain ⟨p0, hp0, hp0i⟩ := find_subdevice_parent_mem done s j hfp
              have hp0m : p0.stable ∈ done.map SubDevice.stable :=
                List.mem_map_of_mem _ hp0
              rw [← hstable] at hp0m
              obtain ⟨p1, hp1, hp1s⟩ := List.mem_map.mp hp0m
              obtain ⟨q, hq⟩ :=
                find_index_isSome_of_mem hp1 ((stable_fields hp1s).1.trans hp0i)
              rw [hnone] at hq
              exact Option.noConfusion hq
          · subst ha
            subst he
            refine ⟨le_satAdd32 _ _ haccM, satAdd32_le _ _, Nat.le_refl _, ?_⟩
            intro _ j hj
            simp only at hj
            rw [hj] at hsome
            simp only [Option.some_bind] at hsome
            refine ⟨parent, find_index_append_left _ _ _ _ hsome, ?_⟩
            have hpmem : parent ∈ done1x := List.mem_of_find?_eq_some hsome
            have hle1 : parent.propagation_delay ≤ accum := hdelay1 parent hpmem
            have hle2 : accum ≤ satAdd32 accum c := le_satAdd32 _ _ haccM
            simp only []
            omega
      · rw [if_neg hdc] at h
        dsimp only [] at h
        simp only [Except.ok.injEq, Prod.mk.injEq] at h
        obtain ⟨h1, h2, h3⟩ := h
        subst h1
        subst h2
        subst h3
        refine ⟨hstable, Nat.le_refl _, haccM, ?_, ?_⟩
        · exact le_trans (Nat.le_of_eq hs0) (Nat.zero_le _)
        · intro hdc2 j hj
          exfalso
          simp only at hdc2
          exact hdc (by simpa using hdc2)

theorem assignLoop_good :
    ∀ (rest done : List SubDevice) (accum : Nat) (final : List SubDevice),
      assignLoop done rest accum = .ok final →
      accum ≤ 2 ^ 32 - 1 →
      (∀ p ∈ done, p.propagation_delay ≤ accum) →
      (∀ s ∈ done, GoodIn s done) →
      (∀ s ∈ rest, s.propagation_delay = 0) →
      ∀ s ∈ final, GoodIn s final := by
  intro rest
  induction rest with
  | nil =>
    intro done accum final h _ _ hgood _
    rw [assignLoop] at h
    simp only [Except.ok.injEq] at h
    subst h
    exact hgood
  | cons s rest ih =>
    intro done accum final h haccM hdelay hgood hrest0
    rw [assignLoop] at h
    cases hstep : assignStep done s accum with
    | error e =>
      rw [hstep] at h
      dsimp only [] at h
      simp at h
    | ok t =>
      obtain ⟨done1, s2, accum2⟩ := t
      rw [hstep] at h
      dsimp only [] at h
      obtain ⟨hstable, hacc_le, hacc2M, hs2delay, hgood_s2⟩ :=
        assignStep_spec done s accum done1 s2 accum2 hstep haccM hdelay
          (hrest0 s (List.mem_cons_self _ _))
      have hmap2 : (done1 ++ [s2]).map SubDevice.stable
          = done.map SubDevice.stable ++ [s2.stable] := by
        rw [List.map_append, hstable]
        simp
      refine ih (done1 ++ [s2]) accum2 final h hacc2M ?_ ?_ ?_
      · intro p hp
        rcases List.mem_append.mp hp with hp1 | hp2
        · obtain ⟨q, hq, hqs⟩ := stable_eq_transfer hstable p hp1
          rw [← (stable_fields hqs).2.1]
          exact le_trans (hdelay q hq) hacc_le
        · rw [List.mem_singleton] at hp2
          subst hp2
          exact hs2delay
      · intro x hx
        rcases List.mem_append.mp hx with hx1 | hx2
        · obtain ⟨q, hq, hqs⟩ := stable_eq_transfer hstable x hx1
          have hf := stable_fields hqs
          intro hdc2 j hpj
          obtain ⟨p0, hfind0, hle0⟩ :=
            hgood q hq (hf.2.2.2.trans hdc2) j (hf.2.2.1.trans hpj)
          obtain ⟨p1, hfind1, hps⟩ :=
            find_index_stable_mono j done (done1 ++ [s2]) [s2.stable] hmap2 p0 hfind0
          refine ⟨p1, hfind1, ?_⟩
          rw [(stable_fields hps).2.1, ← hf.2.1]
          exact hle0
        · rw [List.mem_singleton] at hx2
          subst hx2
          exact hgood_s2
      · intro x hx
        exact hrest0 x (List.mem_cons_of_mem _ hx)

/-- Claim C7: after `assign_parent_relationships` completes successfully on a
sub-device list (all devices starting with a zero propagation delay, as
discovery produces them), every DC-capable sub-device `s` with a parent
satisfies `propagation_delay s ≥ propagation_delay (parent s)`, where the
parent is the device the engine looks up by `s`'s parent index: the delay
accumulator only grows, by saturating addition of a non-negative per-device
contribution, as discovery order is walked. -/
theorem c7_delay_monotone (subdevices final : List SubDevice)
    (h0 : ∀ s ∈ subdevices, s.propagation_delay = 0)
    (hok : assign_parent_relationships subdevices = .ok final) :
    ∀ s ∈ final, s.dc_support = true → ∀ j, s.parent_index = some j →
      ∀ p, final.find? (fun d => d.index == j) = some p →
        p.propagation_delay ≤ s.propagation_delay := by
  intro s hs hdc j hj p hp
  have hgood := assignLoop_good subdevices [] 0 final hok (by norm_num)
    (by simp) (by simp) h0 s hs
  obtain ⟨q, hq, hle⟩ := hgood hdc j hj
  rw [hp] at hq
  simp only [Option.some.injEq] at hq
  rw [hq]
  exact hle

/-- The result of `assign_parent_relationships` on `forkSubdevices`, written
out explicitly (parent indices, propagation delays and downstream port
assignments filled in). -/
def forkFinal : List SubDevice :=
  [ { configured_address := 0x1000, index := 0
    , ports := { ports :=
        [ { active := true, dc_receive_time := 3380373882, number := 0, downstream_to := none }
        , { active := false, dc_receive_time := 1819436374, number := 3, downstream_to := none }
        , { active := true, dc_receive_time := 3380374482, number := 1, downstream_to := some 1 }
        , { active := true, dc_receive_time := 3380375762, number := 2, downstream_to := some 3 } ] }
    , dc_receive_time := 402812332410, parent_index := none
    , propagation_delay := 0, dc_support := true }
  , { configured_address := 0x1001, index := 1
    , ports := { ports :=
        [ { active := true, dc_receive_time := 3384116362, number := 0, downstream_to := none }
        , { active := false, dc_receive_time := 1819436374, number := 3, downstream_to := none }
        , { active := false, dc_receive_time := 1717989224, number := 1, downstream_to := none }
        , { active := true, dc_receive_time := 3384116672, number := 2, downstream_to := some 2 } ] }
    , dc_receive_time := 402816074890, parent_index := some 0
    , propagation_delay := 145, dc_support := true }
  , { configured_address := 0x1002, index := 2
    , ports := { ports :=
        [ { active := true, dc_receive_time := 3383862982, number := 0, downstream_to := none }
        , { active := false, dc_receive_time := 1819436374, number := 3, downstream_to := none }
        , { active := false, dc_receive_time := 1717989224, number := 1, downstream_to := none }
        , { active := false, dc_receive_time := 0, number := 2, downstream_to := none } ] }
    , dc_receive_time := 0, parent_index := some 1
    , propagation_delay := 300, dc_support := true }
  , { configured_address := 0x1003, index := 3
    , ports := { ports :=
        [ { active := true, dc_receive_time := 3373883962, number := 0, downstream_to := none }
        , { active := false, dc_receive_time := 1819436374, number := 3, downstream_to := none }
        , { active := true, dc_receive_time := 3373884272, number := 1, downstream_to := some 4 }
        , { active := false, dc_receive_time := 0, number := 2, downstream_to := none } ] }
    , dc_receive_time := 0, parent_index := some 0
    , propagation_delay := 1085, dc_support := true }
  , { configured_address := 0x1004, index := 4
    , ports := { ports :=
        [ { active := true, dc_receive_time := 3375060602, number := 0, downstream_to := none }
        , { active := false, dc_receive_time := 1819436374, number := 3, downstream_to := none }
        , { active := false, dc_receive_time := 1717989224, number := 1, downstream_to := none }
        , { active := false, dc_receive_time := 0, number := 2, downstream_to := none } ] }
    , dc_receive_time := 0, parent_index := some 3
    , propagation_delay := 1240, dc_support := true } ]

/-- Witness for C7 on the concrete five-device fork scenario. -/
theorem c7_delay_monotone_witness :
    (∀ s ∈ forkSubdevices, s.propagation_delay = 0) ∧
    assign_parent_relationships forkSubdevices = .ok forkFinal ∧
    (∀ s ∈ forkFinal, s.dc_support = true → ∀ j, s.parent_index = some j →
      ∀ p, forkFinal.find? (fun d => d.index == j) = some p →
        p.propagation_delay ≤ s.propagation_delay) :=
  ⟨by decide, by rfl, c7_delay_monotone forkSubdevices forkFinal (by decide) (by rfl)⟩

/-! ## Frame slot state machine and allocator
(`src/src/pdu_loop/frame_element/mod.rs`, `src/src/pdu_loop/storage.rs`) -/

/-- `FrameState` from `frame_element/mod.rs`; `None` (= `Idle` in the spec's
terms) must be the zero discriminant. -/
inductive FrameState where
  | None
  | Created
  | Sendable
  | Sending
  | Sent
  | RxBusy
  | RxDone
  | RxProcessing
  deriving Repr, DecidableEq

/-- The PDU error kinds used by the frame store and PDU loop.  The error enum
itself lives in `error.rs`, which is not under `src/`; the constructors are
modelled from the spec's flat error list (§7). -/
inductive PduError where
  | TooLong
  | SwapState
  | InvalidIndex (idx : Nat)
  | InvalidFrameState
  | Decode
  deriving Repr, DecidableEq

/-- The loop inside `PduStorageRef::alloc_frame` from `storage.rs`, modelled
over the list of per-slot states and the atomic cursor (a `u8`, wrapping at
256).  Each iteration reads and post-increments the cursor, reduces it modulo
`num_frames` and attempts the `None → Created` compare-and-swap
(`CreatedFrame::claim_created`).  `fuel` is the number of remaining loop
iterations; the second component of the result counts the claim attempts
made. -/
def allocFrameLoop :
    Nat → Nat → List FrameState → Except PduError (Nat × List FrameState) × Nat
  | 0, _, _ => (.error .SwapState, 0)
  | fuel + 1, cursor, slots =>
    let frame_idx := (cursor % 256) % slots.length
    if slots.get? frame_idx = some FrameState.None then
      (.ok (frame_idx, slots.set frame_idx FrameState.Created), 1)
    else
      match allocFrameLoop fuel (cursor + 1) slots with
      | (r, n) => (r, n + 1)

/-- `PduStorageRef::alloc_frame` from `storage.rs`: run the claim loop for
`num_frames * 2` iterations, then give up with `PduError::SwapState`. -/
def alloc_frame (cursor : Nat) (slots : List FrameState) :
    Except PduError (Nat × List FrameState) × Nat :=
  allocFrameLoop (slots.length * 2) cursor slots

/-- Claim C4: for every store of `N` slots in which every slot is outside the
`Idle` (`None`) state, a call to `alloc_frame` performs exactly `2 * N` claim
attempts (hence at most `2 * N`) and then returns the allocator-exhausted
error `PduError::SwapState` instead of looping forever; it never succeeds
while no slot is `Idle`. -/
theorem c4_alloc_exhaustion (slots : List FrameState) (cursor : Nat)
    (hbusy : ∀ s ∈ slots, s ≠ FrameState.None) :
    alloc_frame cursor slots = (.error .SwapState, 2 * slots.length) := by
  have hloop : ∀ fuel c, allocFrameLoop fuel c slots = (.error .SwapState, fuel) := by
    intro fuel
    induction fuel with
    | zero =>
      intro c
      rfl
    | succ fuel ih =>
      intro c
      rw [allocFrameLoop]
      have hmiss : ¬ slots.get? ((c % 256) % slots.length) = some FrameState.None := by
        intro hc
        exact hbusy FrameState.None (List.get?_mem hc) rfl
      rw [if_neg hmiss, ih (c + 1)]
  rw [alloc_frame, hloop (slots.length * 2) cursor, Nat.mul_comm]

/-- Witness for C4: a two-slot store with both slots busy. -/
theorem c4_alloc_exhaustion_witness :
    (∀ s ∈ [FrameState.Sent, FrameState.Created], s ≠ FrameState.None) ∧
    alloc_frame 5 [FrameState.Sent, FrameState.Created] = (.error .SwapState, 2 * 2) :=
  ⟨by decide, c4_alloc_exhaustion [FrameState.Sent, FrameState.Created] 5 (by decide)⟩

/-! ## Response future
(`src/src/pdu_loop/frame_element/receiving_frame.rs`) -/

/-- Outcome of one `ReceiveFrameFut::poll` call. -/
inductive PollOutcome where
  | pending
  | ready_received
  | ready_timeout
  | ready_invalid_state
  deriving Repr, DecidableEq

/-- The state a `ReceiveFrameFut` shares with its frame slot: whether the
future still holds the `FrameBox` (`self.frame.is_some()`), the slot's atomic
`FrameState`, and the remaining retries. -/
structure ReceiveFut where
  frame_taken : Bool
  slot : FrameState
  retries_left : Nat
  deriving Repr, DecidableEq

/-- `ReceiveFrameFut::poll` from `receiving_frame.rs`, one call.
`timer_expired` is the outcome of polling the timeout timer
(`Poll::Ready` / `Poll::Pending`).  Waker registration and waking the TX
driver have no effect on this state and are omitted.  `release` is the
`set_state(FrameState::None)` in the source. -/
def pollReceiveFut (f : ReceiveFut) (timer_expired : Bool) : PollOutcome × ReceiveFut :=
  if f.frame_taken then
    (.ready_invalid_state, f)
  else if f.slot = FrameState.RxDone then
    (.ready_received, { f with slot := FrameState.RxProcessing, frame_taken := true })
  else
    let was := f.slot
    if timer_expired then
      if f.retries_left = 0 then
        (.ready_timeout, { f with slot := FrameState.None, frame_taken := true })
      else
        let f2 := { f with slot := FrameState.Sendable,
                           retries_left := f.retries_left - 1 }
        match was with
        | .Sendable | .Sending | .Sent | .RxBusy => (.pending, f2)
        | _ => (.ready_invalid_state, { f2 with frame_taken := true })
    else
      match was with
      | .Sendable | .Sending | .Sent | .RxBusy => (.pending, f)
      | _ => (.ready_invalid_state, { f with frame_taken := true })

/-- `k` polls of the future, each with the timeout timer expired. -/
def iterExpired : Nat → ReceiveFut → ReceiveFut
  | 0, f => f
  | k + 1, f => (pollReceiveFut (iterExpired k f) true).2

theorem iterExpired_char (n : Nat) (s0 : FrameState)
    (hs0 : s0 = FrameState.Sendable ∨ s0 = FrameState.Sending ∨ s0 = FrameState.Sent) :
    ∀ k, k ≤ n →
      iterExpired k { frame_taken := false, slot := s0, retries_left := n }
        = { frame_taken := false,
            slot := if k = 0 then s0 else FrameState.Sendable,
            retries_left := n - k } := by
  intro k
  induction k with
  | zero =>
    intro _
    simp [iterExpired]
  | succ k ih =>
    intro hk
    rw [iterExpired, ih (by omega)]
    have hr : n - k ≠ 0 := by omega
    have hn : ¬ n = 0 := by omega
    by_cases hk0 : k = 0
    · subst hk0
      rcases hs0 with h | h | h <;>
        simp [h, pollReceiveFut, hn]
    · simp [hk0, pollReceiveFut, hr]
      omega

/-- Claim C3: for a frame marked sendable with a retry count of `n` (the
slot in `Sendable`, or already `Sending`/`Sent` after the TX driver picked it
up) to which no response ever arrives, polling the returned response future
yields `Err(Timeout)` exactly after the timeout timer has expired `n + 1`
times: each of the first `n` expiries returns `Pending`, puts the slot back
to `Sendable` (re-waking the TX driver) and decrements the retry counter, and
the `(n+1)`-th expiry completes with `Timeout`, after which the slot is
`Idle` (`FrameState::None`). -/
theorem c3_timeout_retries (n : Nat) (s0 : FrameState)
    (hs0 : s0 = FrameState.Sendable ∨ s0 = FrameState.Sending ∨ s0 = FrameState.Sent) :
    (∀ k, k < n →
      (pollReceiveFut
        (iterExpired k { frame_taken := false, slot := s0, retries_left := n }) true).1
        = PollOutcome.pending ∧
      (iterExpired (k + 1) { frame_taken := false, slot := s0, retries_left := n }).slot
        = FrameState.Sendable ∧
      (iterExpired (k + 1) { frame_taken := false, slot := s0, retries_left := n }).retries_left
        = n - (k + 1)) ∧
    (pollReceiveFut
      (iterExpired n { frame_taken := false, slot := s0, retries_left := n }) true).1
      = PollOutcome.ready_timeout ∧
    (iterExpired (n + 1) { frame_taken := false, slot := s0, retries_left := n }).slot
      = FrameState.None ∧
    (iterExpired (n + 1) { frame_taken := false, slot := s0, retries_left := n }).frame_taken
      = true := by
  have hchar := iterExpired_char n s0 hs0
  refine ⟨?_, ?_, ?_, ?_⟩
  · intro k hk
    refine ⟨?_, ?_, ?_⟩
    · rw [hchar k (by omega)]
      have hr : n - k ≠ 0 := by omega
      have hn : ¬ n = 0 := by omega
      by_cases hk0 : k = 0
      · subst hk0
        rcases hs0 with h | h | h <;> simp [h, pollReceiveFut, hn]
      · simp [hk0, pollReceiveFut, hr]
    · rw [hchar (k + 1) (by omega)]
      simp
    · rw [hchar (k + 1) (by omega)]
  · rw [hchar n (Nat.le_refl n)]
    have hr : n - n = 0 := by omega
    by_cases hn0 : n = 0
    · subst hn0
      rcases hs0 with h | h | h <;> simp [h, pollReceiveFut]
    · simp [hn0, pollReceiveFut, hr]
  · rw [iterExpired, hchar n (Nat.le_refl n)]
    have hr : n - n = 0 := by omega
    by_cases hn0 : n = 0
    · subst hn0
      rcases hs0 with h | h | h <;> simp [h, pollReceiveFut]
    · simp [hn0, pollReceiveFut, hr]
  · rw [iterExpired, hchar n (Nat.le_refl n)]
    have hr : n - n = 0 := by omega
    by_cases hn0 : n = 0
    · subst hn0
      rcases hs0 with h | h | h <;> simp [h, pollReceiveFut]
    · simp [hn0, pollReceiveFut, hr]

/-- Witness for C3 at retry count `n = 2` with the frame in `Sent`. -/
theorem c3_timeout_retries_witness :
    (FrameState.Sent = FrameState.Sendable ∨ FrameState.Sent = FrameState.Sending ∨
      FrameState.Sent = FrameState.Sent) ∧
    (pollReceiveFut
      (iterExpired 2 { frame_taken := false, slot := FrameState.Sent, retries_left := 2 })
      true).1 = PollOutcome.ready_timeout ∧
    (iterExpired 3 { frame_taken := false, slot := FrameState.Sent, retries_left := 2 }).slot
      = FrameState.None :=
  ⟨by decide,
    (c3_timeout_retries 2 FrameState.Sent (by decide)).2.1,
    (c3_timeout_retries 2 FrameState.Sent (by decide)).2.2.1⟩

/-! ## RX path (`src/src/pdu_loop/pdu_rx.rs`) -/

/-- `ReceiveAction` from `pdu_rx.rs`. -/
inductive ReceiveAction where
  | Ignored
  | Processed
  deriving Repr, DecidableEq

/-- The error values produced along `PduRx::receive_frame`.  The flat error
enum lives in `error.rs`, which is not under `src/`; constructors follow the
spec's error list (§7), with `WireTooShort`/`WireInvalidValue` standing for
the wire-codec read errors and `EthernetTooShort` for the failure of
`EthernetFrame::new_checked` on a buffer shorter than the 14-byte Ethernet
header. -/
inductive RxError where
  | EthernetTooShort
  | WireTooShort
  | WireInvalidValue
  | ReceiveFrame
  | Internal
  | Decode
  | InvalidIndex (idx : Nat)
  deriving Repr, DecidableEq

/-- What `receive_frame` reads and writes per frame slot: the atomic state,
the `first_pdu` word and the PDU-region buffer. -/
structure RxSlot where
  state : FrameState
  first_pdu : Nat
  pdu_buf : List Nat
  deriving Repr, DecidableEq

/-- Rust's `slice::get(start..stop)`: `none` when the range exceeds the
slice. -/
def sliceRange (l : List Nat) (start stop : Nat) : Option (List Nat) :=
  if start ≤ stop ∧ stop ≤ l.length then some ((l.drop start).take (stop - start))
  else none

/-- `frame_data[0..src.len()].copy_from_slice(src)`. -/
def copyInto (dst src : List Nat) : List Nat :=
  src ++ dst.drop src.length

/-- Steps 1–3 of `PduRx::receive_frame`: Ethernet parsing
(`EthernetFrame::new_checked`, with the Ethernet wire accessors modelled from
the spec's frame layout — the `ethernet` module is not under `src/`), the
ethertype/self-echo filter, the EtherCAT frame header, the empty-payload
filter, and the extraction of the PDU region.  `.ok none` is an ignored
frame, `.ok (some i)` the PDU region `i`. -/
def parsePduRegion (source_mac ethernet_frame : List Nat) :
    Except RxError (Option (List Nat)) :=
  if ethernet_frame.length < 14 then .error .EthernetTooShort
  else
    let ethertype := 256 * ((ethernet_frame.get? 12).getD 0) + ((ethernet_frame.get? 13).getD 0)
    let src_addr := (ethernet_frame.drop 6).take 6
    if ethertype ≠ 0x88A4 ∨ src_addr = source_mac then .ok none
    else
      let i0 := ethernet_frame.drop 14
      if i0.length < 2 then .error .WireTooShort
      else
        match EthercatFrameHeader.unpack ((i0.get? 0).getD 0) ((i0.get? 1).getD 0) with
        | none => .error .WireInvalidValue
        | some frame_header =>
          if frame_header.payload_len = 0 then .ok none
          else
            match sliceRange i0 2 (2 + frame_header.payload_len) with
            | none => .error .ReceiveFrame
            | some i => .ok (some i)

/-- `PduRx::receive_frame` from `pdu_rx.rs` over the slot list: parse the
frame, read the first PDU's index byte, find the slot by `first_pdu`, CAS it
`Sent → RxBusy` (`claim_receiving`; failure yields
`PduError::InvalidIndex(frame_index)`), copy the PDU region into the slot and
CAS `RxBusy → RxDone` (`mark_received`), waking the stored waker. -/
def receive_frame (source_mac : List Nat) (exit_flag : Bool)
    (slots : List RxSlot) (ethernet_frame : List Nat) :
    Except RxError ReceiveAction × List RxSlot :=
  if exit_flag then (.ok .Ignored, slots)
  else
    match parsePduRegion source_mac ethernet_frame with
    | .error e => (.error e, slots)
    | .ok none => (.ok .Ignored, slots)
    | .ok (some i) =>
      match i.get? 1 with
      | none => (.error .Internal, slots)
      | some pdu_idx =>
        match frame_index_by_first_pdu_index (slots.map (·.first_pdu)) pdu_idx with
        | none => (.error .Decode, slots)
        | some frame_index =>
          match slots.get? frame_index with
          | none => (.error (.InvalidIndex frame_index), slots)
          | some slot =>
            if slot.state = FrameState.Sent then
              if i.length ≤ slot.pdu_buf.length then
                (.ok .Processed,
                  slots.set frame_index
                    { slot with state := FrameState.RxDone,
                                pdu_buf := copyInto slot.pdu_buf i })
              else
                (.error .Internal,
                  slots.set frame_index { slot with state := FrameState.RxBusy })
            else
              (.error (.InvalidIndex frame_index), slots)

/-- Counterexample to claim C2 as stated: a one-slot store whose slot matches
the incoming frame's first PDU index `0x2a` but sits in `Sendable` (a timeout
retry released it), fed a well-formed EtherCAT frame.  `receive_frame` does
drop the frame and leaves the slot untouched, but it returns
`Err(PduError::InvalidIndex(0))`, not a non-error result as the claim
states. -/
theorem c2_counterexample :
    receive_frame [0x10, 0x10, 0x10, 0x10, 0x10, 0x10] false
      [{ state := FrameState.Sendable, first_pdu := 0x2a,
         pdu_buf := [0, 0, 0, 0, 0, 0, 0, 0, 0, 0, 0, 0] }]
      ([0xff, 0xff, 0xff, 0xff, 0xff, 0xff] ++
        [0x12, 0x10, 0x10, 0x10, 0x10, 0x10] ++
        [0x88, 0xa4] ++ [0x0c, 0x10] ++
        [0x00, 0x2a, 0x00, 0x00, 0x00, 0x00, 0x00, 0x00, 0x00, 0x00, 0x00, 0x00])
      = (.error (.InvalidIndex 0),
          [{ state := FrameState.Sendable, first_pdu := 0x2a,
             pdu_buf := [0, 0, 0, 0, 0, 0, 0, 0, 0, 0, 0, 0] }]) := by
  rfl

/-- Claim C2 (amended): when the RX path receives an EtherCAT frame whose
first PDU index matches a stored slot, but the compare-and-swap of that slot
from `Sent` to `RxBusy` fails (e.g. because a timeout already released the
slot), `receive_frame` drops the frame without modifying any slot — it is
never double-processed — but it returns
`Err(PduError::InvalidIndex(frame_index))` rather than returning without an
error. -/
theorem c2_cas_failure_drops (source_mac : List Nat) (slots : List RxSlot)
    (ethernet_frame : List Nat) (i : List Nat) (pdu_idx frame_index : Nat) (slot : RxSlot)
    (hparse : parsePduRegion source_mac ethernet_frame = .ok (some i))
    (hidx : i.get? 1 = some pdu_idx)
    (hlook : frame_index_by_first_pdu_index (slots.map (·.first_pdu)) pdu_idx
      = some frame_index)
    (hslot : slots.get? frame_index = some slot)
    (hcas : slot.state ≠ FrameState.Sent) :
    receive_frame source_mac false slots ethernet_frame
      = (.error (.InvalidIndex frame_index), slots) := by
  rw [receive_frame, if_neg (by simp), hparse]
  dsimp only []
  rw [hidx]
  dsimp only []
  rw [hlook]
  dsimp only []
  rw [hslot]
  dsimp only []
  rw [if_neg hcas]

/-- Witness for C2 (amended) on the counterexample's store and frame. -/
theorem c2_cas_failure_drops_witness :
    receive_frame [0x10, 0x10, 0x10, 0x10, 0x10, 0x10] false
      [{ state := FrameState.Sendable, first_pdu := 0x2a,
         pdu_buf := [0, 0, 0, 0, 0, 0, 0, 0, 0, 0, 0, 0] }]
      ([0xff, 0xff, 0xff, 0xff, 0xff, 0xff] ++
        [0x12, 0x10, 0x10, 0x10, 0x10, 0x10] ++
        [0x88, 0xa4] ++ [0x0c, 0x10] ++
        [0x00, 0x2a, 0x00, 0x00, 0x00, 0x00, 0x00, 0x00, 0x00, 0x00, 0x00, 0x00])
      = (.error (.InvalidIndex 0),
          [{ state := FrameState.Sendable, first_pdu := 0x2a,
             pdu_buf := [0, 0, 0, 0, 0, 0, 0, 0, 0, 0, 0, 0] }]) :=
  c2_cas_failure_drops [0x10, 0x10, 0x10, 0x10, 0x10, 0x10]
    [{ state := FrameState.Sendable, first_pdu := 0x2a,
       pdu_buf := [0, 0, 0, 0, 0, 0, 0, 0, 0, 0, 0, 0] }]
    ([0xff, 0xff, 0xff, 0xff, 0xff, 0xff] ++
      [0x12, 0x10, 0x10, 0x10, 0x10, 0x10] ++
      [0x88, 0xa4] ++ [0x0c, 0x10] ++
      [0x00, 0x2a, 0x00, 0x00, 0x00, 0x00, 0x00, 0x00, 0x00, 0x00, 0x00, 0x00])
    [0x00, 0x2a, 0x00, 0x00, 0x00, 0x00, 0x00, 0x00, 0x00, 0x00, 0x00, 0x00]
    0x2a 0 { state := FrameState.Sendable, first_pdu := 0x2a,
             pdu_buf := [0, 0, 0, 0, 0, 0, 0, 0, 0, 0, 0, 0] }
    (by rfl) (by rfl) (by rfl) (by rfl) (by decide)

/-! ## Frame composition
(`src/src/pdu_loop/frame_element/created_frame.rs`) -/

/-- Modelled from the spec: `PduFlags` (`pdu_flags.rs` is not under `src/`):
the 16-bit flags word packs an 11-bit payload length in the low bits and the
more-follows bit in bit 15 (§3, §6), little-endian on the wire. -/
structure PduFlags where
  len : Nat
  more_follows : Bool
  deriving Repr, DecidableEq

/-- Modelled from the spec: `PduFlags::pack_to_slice_unchecked` — mask the
length to 11 bits, set bit 15 from `more_follows`, write little-endian. -/
def PduFlags.pack (f : PduFlags) : List Nat :=
  u16LeBytes ((f.len &&& LEN_MASK) ||| (if f.more_follows then 0x8000 else 0))

/-- Modelled from the spec: `PduFlags::unpack_from_slice` on the 16-bit
word. -/
def PduFlags.unpackWord (raw : Nat) : PduFlags :=
  { len := raw &&& LEN_MASK, more_follows := raw.testBit 15 }

/-- Pad or truncate the 4 address bytes of a command. -/
def pad4 (l : List Nat) : List Nat :=
  (l ++ [0, 0, 0, 0]).take 4

/-- Modelled from the spec: the 10-byte PDU header (`pdu_header.rs` is not
under `src/`): command code (1), index (1), address (4), flags (2), IRQ (2);
the flags field starts at byte offset 6, matching `flags_offset = 6` in
`created_frame.rs`. -/
structure PduHeader where
  command_code : Nat
  index : Nat
  command_raw : List Nat
  flags : PduFlags
  irq : Nat
  deriving Repr, DecidableEq

def PduHeader.pack (h : PduHeader) : List Nat :=
  [h.command_code % 256, h.index % 256] ++ pad4 h.command_raw ++ h.flags.pack
    ++ u16LeBytes h.irq

/-- `write_packed` into `buf[off..]`: overwrite `src.length` bytes of `dst`
at offset `off`. -/
def writeAt (dst : List Nat) (off : Nat) (src : List Nat) : List Nat :=
  dst.take off ++ src ++ dst.drop (off + src.length)

/-- Read the `more_follows` flag back from the packed header starting at
`loc`: the 16-bit little-endian flags word lives at bytes `loc + 6` and
`loc + 7`. -/
def readMoreFollows (buf : List Nat) (loc : Nat) : Bool :=
  (PduFlags.unpackWord
    (u16FromLe ((buf.get? (loc + 6)).getD 0) ((buf.get? (loc + 7)).getD 0))).more_follows

/-- `CreatedFrame` from `created_frame.rs` together with the frame-element
fields `push_pdu` touches: the PDU-region buffer (`pdu_buf`, of length
`DATA - 16`), the consumed byte count, the `first_pdu` word, the PDU count,
the last header location, and the shared atomic PDU index counter
(a `u8`). -/
structure CreatedFrame where
  pdu_buf : List Nat
  pdu_payload_len : Nat
  first_pdu : Nat
  pdu_count : Nat
  last_header_location : Option Nat
  pdu_idx_counter : Nat
  deriving Repr, DecidableEq

/-- `PduResponseHandle` from `created_frame.rs`. -/
structure PduResponseHandle where
  index_in_frame : Nat
  pdu_idx : Nat
  command_code : Nat
  alloc_size : Nat
  deriving Repr, DecidableEq

/-- `CreatedFrame::PDU_OVERHEAD_BYTES` = 10-byte header + 2-byte working
counter. -/
def PDU_OVERHEAD_BYTES : Nat := 12

/-- The state of a freshly claimed frame after `FrameBox::init`: zeroed
PDU region, `pdu_payload_len = 0`, `first_pdu = FIRST_PDU_EMPTY`. -/
def freshCreatedFrame (buflen : Nat) (pdu_idx_counter : Nat) : CreatedFrame :=
  { pdu_buf := List.replicate buflen 0
  , pdu_payload_len := 0
  , first_pdu := FIRST_PDU_EMPTY
  , pdu_count := 0
  , last_header_location := none
  , pdu_idx_counter := pdu_idx_counter }

/-- The common tail of `push_pdu` / `push_pdu_slice_rest` once the PDU fits:
write the 10-byte header at `start_byte`, the payload after it, bump
`pdu_payload_len`, set `first_pdu` if still empty (`FrameBox::add_pdu`), flip
the previous header's `more_follows` to `true` by re-packing its flags bytes
at `last_header_location + 6`, and record the new header location. -/
def pushPduWrite (f : CreatedFrame) (command_code : Nat) (command_raw : List Nat)
    (data : List Nat) (flags_len : Nat) (alloc_size : Nat) (pdu_idx : Nat) :
    CreatedFrame × PduResponseHandle :=
  let start_byte := f.pdu_payload_len
  let header : PduHeader :=
    { command_code := command_code, index := pdu_idx, command_raw := command_raw
    , flags := { len := flags_len, more_follows := false }, irq := 0 }
  let buf1 := writeAt f.pdu_buf start_byte header.pack
  let buf2 := writeAt buf1 (start_byte + 10) data
  let first2 := if f.first_pdu = FIRST_PDU_EMPTY then pdu_idx else f.first_pdu
  let buf3 := match f.last_header_location with
    | some lhl =>
      let old := PduFlags.unpackWord
        (u16FromLe ((buf2.get? (lhl + 6)).getD 0) ((buf2.get? (lhl + 7)).getD 0))
      writeAt buf2 (lhl + 6) (PduFlags.pack { old with more_follows := true })
    | none => buf2
  ({ pdu_buf := buf3
   , pdu_payload_len := start_byte + alloc_size
   , first_pdu := first2
   , pdu_count := f.pdu_count + 1
   , last_header_location := some (match f.last_header_location with
       | some _ => start_byte
       | none => 0)
   , pdu_idx_counter := (f.pdu_idx_counter + 1) % 256 },
   { index_in_frame := f.pdu_count, pdu_idx := pdu_idx
   , command_code := command_code, alloc_size := alloc_size })

/-- `CreatedFrame::push_pdu` from `created_frame.rs`.  The frame state is
returned in both outcomes because the PDU index counter is reserved before
the buffer-capacity check fails with `TooLong`. -/
def push_pdu (f : CreatedFrame) (command_code : Nat) (command_raw : List Nat)
    (data : List Nat) (len_override : Option Nat) :
    Except PduError PduResponseHandle × CreatedFrame :=
  let data_length_usize := match len_override with
    | none => data.length
    | some l => max l data.length
  let alloc_size := data_length_usize + PDU_OVERHEAD_BYTES
  let start_byte := f.pdu_payload_len
  let pdu_idx := f.pdu_idx_counter % 256
  let fBumped := { f with pdu_idx_counter := (f.pdu_idx_counter + 1) % 256 }
  if start_byte + alloc_size ≤ f.pdu_buf.length then
    (.ok (pushPduWrite f command_code command_raw data
        data_length_usize alloc_size pdu_idx).2,
      (pushPduWrite f command_code command_raw data
        data_length_usize alloc_size pdu_idx).1)
  else
    (.error .TooLong, fBumped)

/-- `CreatedFrame::push_pdu_slice_rest` from `created_frame.rs`: consume as
many bytes of `bytes` as fit, or return `Ok(None)` when the input is empty or
no byte fits. -/
def push_pdu_slice_rest (f : CreatedFrame) (command_code : Nat)
    (command_raw : List Nat) (bytes : List Nat) :
    Except PduError (Option (Nat × PduResponseHandle)) × CreatedFrame :=
  let consumed := f.pdu_payload_len
  if bytes.isEmpty then (.ok none, f)
  else
    let max_bytes := f.pdu_buf.length - consumed - PDU_OVERHEAD_BYTES
    if max_bytes = 0 then (.ok none, f)
    else
      let sub_slice_len := min max_bytes bytes.length
      let bytes2 := bytes.take sub_slice_len
      let alloc_size := sub_slice_len + PDU_OVERHEAD_BYTES
      let pdu_idx := f.pdu_idx_counter % 256
      let fBumped := { f with pdu_idx_counter := (f.pdu_idx_counter + 1) % 256 }
      if consumed + alloc_size ≤ f.pdu_buf.length then
        (.ok (some (sub_slice_len,
            (pushPduWrite f command_code command_raw bytes2
              sub_slice_len alloc_size pdu_idx).2)),
          (pushPduWrite f command_code command_raw bytes2
            sub_slice_len alloc_size pdu_idx).1)
      else
        (.error .TooLong, fBumped)

/-- A pushed-PDU request: either `push_pdu` or `push_pdu_slice_rest`. -/
inductive PushOp where
  | pdu (command_code : Nat) (command_raw : List Nat) (data : List Nat)
      (len_override : Option Nat)
  | rest (command_code : Nat) (command_raw : List Nat) (bytes : List Nat)

/-- Apply a sequence of push requests to a frame (failed or no-op requests
leave the frame's PDU region unchanged, as in the source). -/
def applyOps : CreatedFrame → List PushOp → CreatedFrame
  | f, [] => f
  | f, .pdu c cr d lo :: ops => applyOps (push_pdu f c cr d lo).2 ops
  | f, .rest c cr b :: ops => applyOps (push_pdu_slice_rest f c cr b).2 ops

/-- The header start offsets of the PDUs a sequence of requests actually
pushes into the frame. -/
def headerLocs : CreatedFrame → List PushOp → List Nat
  | _, [] => []
  | f, .pdu c cr d lo :: ops =>
    match push_pdu f c cr d lo with
    | (.ok _, f2) => f.pdu_payload_len :: headerLocs f2 ops
    | (.error _, f2) => headerLocs f2 ops
  | f, .rest c cr b :: ops =>
    match push_pdu_slice_rest f c cr b with
    | (.ok (some _), f2) => f.pdu_payload_len :: headerLocs f2 ops
    | (.ok none, f2) => headerLocs f2 ops
    | (.error _, f2) => headerLocs f2 ops

/-! ### Claim C5: more-follows flags -/

theorem writeAt_length (dst src : List Nat) (off : Nat)
    (h : off + src.length ≤ dst.length) :
    (writeAt dst off src).length = dst.length := by
  simp only [writeAt, List.length_append, List.length_take, List.length_drop]
  omega

theorem writeAt_get_lt (dst src : List Nat) (off i : Nat) (h : i < off)
    (hle : off ≤ dst.length) :
    (writeAt dst off src).get? i = dst.get? i := by
  rw [writeAt, List.append_assoc, List.get?_append, List.get?_take h]
  rw [List.length_take]
  omega

theorem writeAt_get_in (dst src : List Nat) (off i : Nat) (h1 : off ≤ i)
    (h2 : i < off + src.length) (hle : off ≤ dst.length) :
    (writeAt dst off src).get? i = src.get? (i - off) := by
  rw [writeAt, List.append_assoc]
  have htk : (dst.take off).length = off := by
    rw [List.length_take]
    omega
  rw [List.get?_append_right (by omega), htk, List.get?_append (by omega)]

theorem writeAt_get_ge (dst src : List Nat) (off i : Nat) (h : off + src.length ≤ i)
    (hle : off ≤ dst.length) :
    (writeAt dst off src).get? i = dst.get? i := by
  rw [writeAt, List.append_assoc]
  have htk : (dst.take off).length = off := by
    rw [List.length_take]
    omega
  rw [List.get?_append_right (by omega), htk,
    List.get?_append_right (by omega), List.get?_drop]
  congr 1
  omega

theorem u16RoundTrip (w : Nat) (hw : w < 65536) :
    u16FromLe (w % 256) (w / 256 % 256) = w := by
  simp only [u16FromLe]
  omega

theorem flags_word_lt (len : Nat) (mf : Bool) :
    ((len &&& LEN_MASK) ||| (if mf then 0x8000 else 0)) < 65536 := by
  have h1 : (len &&& LEN_MASK) < 2 ^ 16 := by
    have h := Nat.and_le_right (n := len) (m := LEN_MASK)
    have h2 : LEN_MASK < 2 ^ 16 := by norm_num [LEN_MASK]
    omega
  have h2 : (if mf then 0x8000 else 0) < 2 ^ 16 := by
    cases mf <;> norm_num
  have h3 := Nat.or_lt_two_pow h1 h2
  norm_num at h3
  exact h3

theorem flags_word_testBit (len : Nat) (mf : Bool) :
    Nat.testBit ((len &&& LEN_MASK) ||| (if mf then 0x8000 else 0)) 15 = mf := by
  rw [Nat.testBit_or]
  have h1 : Nat.testBit (len &&& LEN_MASK) 15 = false := by
    apply Nat.testBit_lt_two_pow
    have h := Nat.and_le_right (n := len) (m := LEN_MASK)
    have h2 : LEN_MASK < 2 ^ 15 := by norm_num [LEN_MASK]
    omega
  rw [h1]
  cases mf
  · simp
  · rw [Bool.false_or]
    have : (0x8000 : Nat) = 2 ^ 15 := by norm_num
    rw [if_pos rfl, this]
    exact Nat.testBit_two_pow_self

/-- Reading back the `more_follows` bit of a freshly packed flags word. -/
theorem readMF_packed (b : List Nat) (loc : Nat) (f : PduFlags)
    (h6 : b.get? (loc + 6) = f.pack.get? 0)
    (h7 : b.get? (loc + 7) = f.pack.get? 1) :
    readMoreFollows b loc = f.more_follows := by
  rw [readMoreFollows, h6, h7]
  simp only [PduFlags.pack, u16LeBytes, List.get?, Option.getD_some]
  rw [u16RoundTrip _ (flags_word_lt f.len f.more_follows)]
  simp only [PduFlags.unpackWord]
  exact flags_word_testBit f.len f.more_follows

/-- Strictly increasing header locations with 12-byte gaps, all ending at or
before `plen`. -/
def locsOk : List Nat → Nat → Prop
  | [], _ => True
  | [a], plen => a + 12 ≤ plen
  | a :: b :: rest, plen => a + 12 ≤ b ∧ locsOk (b :: rest) plen

theorem locsOk_mono : ∀ (hs : List Nat) (p q : Nat), locsOk hs p → p ≤ q → locsOk hs q := by
  intro hs
  induction hs with
  | nil =>
    intro p q _ _
    trivial
  | cons a rest ih =>
    intro p q h hpq
    cases rest with
    | nil =>
      simp only [locsOk] at h ⊢
      omega
    | cons b rest2 =>
      simp only [locsOk] at h ⊢
      exact ⟨h.1, ih p q h.2 hpq⟩

theorem locsOk_last : ∀ (hs : List Nat) (plen last : Nat),
    locsOk hs plen → hs.getLast? = some last → last + 12 ≤ plen := by
  intro hs
  induction hs with
  | nil =>
    intro plen last _ h
    simp at h
  | cons a rest ih =>
    intro plen last h hl
    cases rest with
    | nil =>
      simp only [List.getLast?_singleton, Option.some.injEq] at hl
      subst hl
      exact h
    | cons b rest2 =>
      simp only [locsOk] at h
      rw [List.getLast?_cons_cons] at hl
      exact ih plen last h.2 hl

theorem locsOk_head_le_last : ∀ (rest : List Nat) (b plen last : Nat),
    locsOk (b :: rest) plen → (b :: rest).getLast? = some last → b ≤ last := by
  intro rest
  induction rest with
  | nil =>
    intro b plen last _ hl
    simp only [List.getLast?_singleton, Option.some.injEq] at hl
    omega
  | cons c rest2 ih =>
    intro b plen last h hl
    simp only [locsOk] at h
    rw [List.getLast?_cons_cons] at hl
    have := ih c plen last h.2 hl
    omega

theorem locsOk_dropLast_le : ∀ (hs : List Nat) (plen last : Nat),
    locsOk hs plen → hs.getLast? = some last →
    ∀ loc ∈ hs.dropLast, loc + 12 ≤ last := by
  intro hs
  induction hs with
  | nil =>
    intro plen last _ _ loc hloc
    simp at hloc
  | cons a rest ih =>
    intro plen last h hl loc hloc
    cases rest with
    | nil =>
      simp at hloc
    | cons b rest2 =>
      simp only [locsOk] at h
      rw [List.getLast?_cons_cons] at hl
      rw [List.dropLast_cons₂, List.mem_cons] at hloc
      rcases hloc with he | hm
      · subst he
        have hble := locsOk_head_le_last rest2 b plen last h.2 hl
        omega
      · exact ih plen last h.2 hl loc hm

theorem locsOk_concat : ∀ (hs : List Nat) (plen newloc plen2 : Nat),
    locsOk hs plen →
    (∀ last, hs.getLast? = some last → last + 12 ≤ newloc) →
    newloc + 12 ≤ plen2 →
    locsOk (hs ++ [newloc]) plen2 := by
  intro hs
  induction hs with
  | nil =>
    intro plen newloc plen2 _ _ hn
    simpa [locsOk] using hn
  | cons a rest ih =>
    intro plen newloc plen2 h hlast hn
    cases rest with
    | nil =>
      refine ⟨hlast a rfl, ?_⟩
      simpa [locsOk] using hn
    | cons b rest2 =>
      simp only [locsOk] at h
      refine ⟨h.1, ?_⟩
      exact ih plen newloc plen2 h.2
        (fun last hl => hlast last (by rw [List.getLast?_cons_cons]; exact hl)) hn

theorem pad4_eq (l : List Nat) : ∃ a b c d, pad4 l = [a, b, c, d] := by
  match l with
  | [] => exact ⟨0, 0, 0, 0, rfl⟩
  | [a] => exact ⟨a, 0, 0, 0, rfl⟩
  | [a, b] => exact ⟨a, b, 0, 0, rfl⟩
  | [a, b, c] => exact ⟨a, b, c, 0, rfl⟩
  | a :: b :: c :: d :: rest => exact ⟨a, b, c, d, by simp [pad4]⟩

theorem pack_length (h : PduHeader) : h.pack.length = 10 := by
  obtain ⟨a, b, c, d, hp⟩ := pad4_eq h.command_raw
  simp [PduHeader.pack, hp, PduFlags.pack, u16LeBytes]

theorem pack_get6 (h : PduHeader) : h.pack.get? 6 = h.flags.pack.get? 0 := by
  obtain ⟨a, b, c, d, hp⟩ := pad4_eq h.command_raw
  simp [PduHeader.pack, hp, PduFlags.pack, u16LeBytes]

theorem pack_get7 (h : PduHeader) : h.pack.get? 7 = h.flags.pack.get? 1 := by
  obtain ⟨a, b, c, d, hp⟩ := pad4_eq h.command_raw
  simp [PduHeader.pack, hp, PduFlags.pack, u16LeBytes]

theorem readMF_congr (b1 b2 : List Nat) (loc : Nat)
    (h6 : b1.get? (loc + 6) = b2.get? (loc + 6))
    (h7 : b1.get? (loc + 7) = b2.get? (loc + 7)) :
    readMoreFollows b1 loc = readMoreFollows b2 loc := by
  rw [readMoreFollows, readMoreFollows, h6, h7]

theorem mem_dropLast_or_last : ∀ (l : List Nat) (a x : Nat),
    l.getLast? = some a → x ∈ l → x ∈ l.dropLast ∨ x = a := by
  intro l
  induction l with
  | nil =>
    intro a x _ hx
    simp at hx
  | cons b t ih =>
    intro a x hl hx
    cases t with
    | nil =>
      simp only [List.getLast?_singleton, Option.some.injEq] at hl
      rw [List.mem_singleton] at hx
      right
      omega
    | cons c t2 =>
      rw [List.getLast?_cons_cons] at hl
      rw [List.dropLast_cons₂]
      rcases List.mem_cons.mp hx with he | hm
      · left
        rw [he]
        exact List.mem_cons_self _ _
      · rcases ih a x hl hm with h1 | h2
        · left
          exact List.mem_cons_of_mem _ h1
        · right
          exact h2

/-- The invariant relating a frame under construction to the list `hs` of
header start offsets of the PDUs pushed so far: the consumed region is in
bounds, headers sit at least 12 bytes apart, the recorded last header
location is the last of `hs`, every header but the last reads back
`more_follows = true` and the last reads back `false`. -/
structure FlagsInv (f : CreatedFrame) (hs : List Nat) : Prop where
  plen_le : f.pdu_payload_len ≤ f.pdu_buf.length
  last_loc : f.last_header_location = hs.getLast?
  empty_plen : hs = [] → f.pdu_payload_len = 0
  locs_ok : locsOk hs f.pdu_payload_len
  prev_true : ∀ loc ∈ hs.dropLast, readMoreFollows f.pdu_buf loc = true
  last_false : ∀ loc, hs.getLast? = some loc → readMoreFollows f.pdu_buf loc = false

theorem flagsInv_fresh (buflen k : Nat) : FlagsInv (freshCreatedFrame buflen k) [] := by
  refine ⟨?_, ?_, ?_, ?_, ?_, ?_⟩
  · simp [freshCreatedFrame]
  · simp [freshCreatedFrame]
  · intro _
    rfl
  · trivial
  · intro loc hloc
    simp at hloc
  · intro loc hloc
    simp at hloc

theorem flagsInv_counter (f : CreatedFrame) (hs : List Nat) (k : Nat)
    (inv : FlagsInv f hs) : FlagsInv { f with pdu_idx_counter := k } hs :=
  ⟨inv.plen_le, inv.last_loc, inv.empty_plen, inv.locs_ok, inv.prev_true, inv.last_false⟩

theorem pushPduWrite_inv (f : CreatedFrame) (hs : List Nat) (inv : FlagsInv f hs)
    (c : Nat) (cr data : List Nat) (flags_len alloc_size pdu_idx : Nat)
    (hdata : data.length + 12 ≤ alloc_size)
    (halloc : 12 ≤ alloc_size)
    (hfits : f.pdu_payload_len + alloc_size ≤ f.pdu_buf.length) :
    FlagsInv (pushPduWrite f c cr data flags_len alloc_size pdu_idx).1
      (hs ++ [f.pdu_payload_len]) := by
  rw [pushPduWrite]
  set start := f.pdu_payload_len with hstart
  set hdr : PduHeader :=
    { command_code := c, index := pdu_idx, command_raw := cr
    , flags := { len := flags_len, more_follows := false }, irq := 0 } with hhdr
  set buf1 := writeAt f.pdu_buf start hdr.pack with hbuf1
  set buf2 := writeAt buf1 (start + 10) data with hbuf2
  have hL1 : buf1.length = f.pdu_buf.length := by
    rw [hbuf1]
    apply writeAt_length
    rw [pack_length]
    omega
  have hL2 : buf2.length = f.pdu_buf.length := by
    rw [hbuf2]
    rw [writeAt_length]
    · exact hL1
    · rw [hL1]
      omega
  have hread6 : buf2.get? (start + 6) = hdr.flags.pack.get? 0 := by
    rw [hbuf2, writeAt_get_lt _ _ _ _ (by omega) (by rw [hL1]; omega)]
    rw [hbuf1, writeAt_get_in _ _ _ _ (by omega) (by rw [pack_length]; omega) (by omega)]
    have h6 : start + 6 - start = 6 := by omega
    rw [h6, pack_get6]
  have hread7 : buf2.get? (start + 7) = hdr.flags.pack.get? 1 := by
    rw [hbuf2, writeAt_get_lt _ _ _ _ (by omega) (by rw [hL1]; omega)]
    rw [hbuf1, writeAt_get_in _ _ _ _ (by omega) (by rw [pack_length]; omega) (by omega)]
    have h7 : start + 7 - start = 7 := by omega
    rw [h7, pack_get7]
  have hreadMFnew : readMoreFollows buf2 start = false := by
    have := readMF_packed buf2 start hdr.flags hread6 hread7
    rw [this]
  -- below, keep reads strictly before `start` untouched by the new writes
  have hbelow : ∀ i, i < start → buf2.get? i = f.pdu_buf.get? i := by
    intro i hi
    rw [hbuf2, writeAt_get_lt _ _ _ _ (by omega) (by rw [hL1]; omega)]
    rw [hbuf1, writeAt_get_lt _ _ _ _ (by omega) (by omega)]
  cases hlhl : f.last_header_location with
  | none =>
    have hhs : hs = [] := by
      cases hs with
      | nil => rfl
      | cons a t =>
        have h1 := inv.last_loc
        rw [hlhl] at h1
        have h2 : ((a :: t).getLast?).isSome := by
          rw [List.getLast?_isSome]
          simp
        rw [← h1] at h2
        simp at h2
    have hzero : start = 0 := inv.empty_plen hhs
    subst hhs
    refine ⟨?_, ?_, ?_, ?_, ?_, ?_⟩
    · simp only [hL2]
      omega
    · simp [hzero]
    · intro h
      simp at h
    · simp only [List.nil_append, locsOk]
      omega
    · intro loc hloc
      simp at hloc
    · intro loc hloc
      simp only [List.nil_append, List.getLast?_singleton, Option.some.injEq] at hloc
      subst hloc
      exact hreadMFnew
  | some lhl =>
    have hlast : hs.getLast? = some lhl := by
      have h1 := inv.last_loc
      rw [hlhl] at h1
      exact h1.symm
    have hlhl12 : lhl + 12 ≤ start := locsOk_last hs start lhl inv.locs_ok hlast
    set oldw := PduFlags.unpackWord
      (u16FromLe ((buf2.get? (lhl + 6)).getD 0) ((buf2.get? (lhl + 7)).getD 0)) with holdw
    set newbytes := PduFlags.pack { oldw with more_follows := true } with hnew
    have hnblen : newbytes.length = 2 := by
      simp [hnew, PduFlags.pack, u16LeBytes]
    have hL3 : (writeAt buf2 (lhl + 6) newbytes).length = f.pdu_buf.length := by
      rw [writeAt_length]
      · exact hL2
      · rw [hL2, hnblen]
        omega
    refine ⟨?_, ?_, ?_, ?_, ?_, ?_⟩
    · simp only [hL3]
      omega
    · simp [List.getLast?_concat]
    · intro h
      simp at h
    · exact locsOk_concat hs start start (start + alloc_size) inv.locs_ok
        (fun last hl => by
          rw [hlast] at hl
          simp only [Option.some.injEq] at hl
          omega)
        (by omega)
    · intro loc hloc
      rw [List.dropLast_concat] at hloc
      rcases mem_dropLast_or_last hs lhl loc hlast hloc with hm | he
      · have hloc12 : loc + 12 ≤ lhl := locsOk_dropLast_le hs start lhl inv.locs_ok hlast loc hm
        have h6 : (writeAt buf2 (lhl + 6) newbytes).get? (loc + 6) = f.pdu_buf.get? (loc + 6) := by
          rw [writeAt_get_lt _ _ _ _ (by omega) (by rw [hL2]; omega)]
          exact hbelow _ (by omega)
        have h7 : (writeAt buf2 (lhl + 6) newbytes).get? (loc + 7) = f.pdu_buf.get? (loc + 7) := by
          rw [writeAt_get_lt _ _ _ _ (by omega) (by rw [hL2]; omega)]
          exact hbelow _ (by omega)
        rw [readMF_congr _ _ _ h6 h7]
        exact inv.prev_true loc hm
      · rw [he]
        have h6 : (writeAt buf2 (lhl + 6) newbytes).get? (lhl + 6) = newbytes.get? 0 := by
          rw [writeAt_get_in _ _ _ _ (by omega) (by rw [hnblen]; omega) (by rw [hL2]; omega)]
          congr 1
          omega
        have h7 : (writeAt buf2 (lhl + 6) newbytes).get? (lhl + 7) = newbytes.get? 1 := by
          rw [writeAt_get_in _ _ _ _ (by omega) (by rw [hnblen]; omega) (by rw [hL2]; omega)]
          congr 1
          omega
        have := readMF_packed (writeAt buf2 (lhl + 6) newbytes) lhl
          { oldw with more_follows := true } (by rw [h6, hnew]) (by rw [h7, hnew])
        rw [this]
    · intro loc hloc
      rw [List.getLast?_concat] at hloc
      simp only [Option.some.injEq] at hloc
      subst hloc
      have h6 : (writeAt buf2 (lhl + 6) newbytes).get? (start + 6) = buf2.get? (start + 6) := by
        rw [writeAt_get_ge _ _ _ _ (by rw [hnblen]; omega) (by rw [hL2]; omega)]
      have h7 : (writeAt buf2 (lhl + 6) newbytes).get? (start + 7) = buf2.get? (start + 7) := by
        rw [writeAt_get_ge _ _ _ _ (by rw [hnblen]; omega) (by rw [hL2]; omega)]
      rw [readMF_congr _ _ _ h6 h7]
      exact hreadMFnew

theorem push_pdu_ok (f : CreatedFrame) (c : Nat) (cr d : List Nat) (lo : Option Nat)
    (handle : PduResponseHandle) (f2 : CreatedFrame)
    (h : push_pdu f c cr d lo = (.ok handle, f2)) :
    ∃ dl, d.length ≤ dl ∧
      f.pdu_payload_len + (dl + PDU_OVERHEAD_BYTES) ≤ f.pdu_buf.length ∧
      f2 = (pushPduWrite f c cr d dl (dl + PDU_OVERHEAD_BYTES)
        (f.pdu_idx_counter % 256)).1 := by
  rw [push_pdu.eq_def] at h
  cases lo with
  | none =>
    try dsimp only [] at h
    by_cases hfit : f.pdu_payload_len + (d.length + PDU_OVERHEAD_BYTES) ≤ f.pdu_buf.length
    · rw [if_pos hfit] at h
      simp only [Prod.mk.injEq, Except.ok.injEq] at h
      exact ⟨d.length, Nat.le_refl _, hfit, h.2.symm⟩
    · rw [if_neg hfit] at h
      simp at h
  | some l =>
    try dsimp only [] at h
    by_cases hfit :
        f.pdu_payload_len + (max l d.length + PDU_OVERHEAD_BYTES) ≤ f.pdu_buf.length
    · rw [if_pos hfit] at h
      simp only [Prod.mk.injEq, Except.ok.injEq] at h
      exact ⟨max l d.length, Nat.le_max_right _ _, hfit, h.2.symm⟩
    · rw [if_neg hfit] at h
      simp at h

theorem push_pdu_error (f : CreatedFrame) (c : Nat) (cr d : List Nat) (lo : Option Nat)
    (e : PduError) (f2 : CreatedFrame)
    (h : push_pdu f c cr d lo = (.error e, f2)) :
    f2 = { f with pdu_idx_counter := (f.pdu_idx_counter + 1) % 256 } := by
  rw [push_pdu.eq_def] at h
  cases lo with
  | none =>
    try dsimp only [] at h
    by_cases hfit : f.pdu_payload_len + (d.length + PDU_OVERHEAD_BYTES) ≤ f.pdu_buf.length
    · rw [if_pos hfit] at h
      simp at h
    · rw [if_neg hfit] at h
      simp only [Prod.mk.injEq] at h
      exact h.2.symm
  | some l =>
    try dsimp only [] at h
    by_cases hfit :
        f.pdu_payload_len + (max l d.length + PDU_OVERHEAD_BYTES) ≤ f.pdu_buf.length
    · rw [if_pos hfit] at h
      simp at h
    · rw [if_neg hfit] at h
      simp only [Prod.mk.injEq] at h
      exact h.2.symm

theorem push_rest_ok_some (f : CreatedFrame) (c : Nat) (cr b : List Nat)
    (n : Nat) (handle : PduResponseHandle) (f2 : CreatedFrame)
    (h : push_pdu_slice_rest f c cr b = (.ok (some (n, handle)), f2)) :
    ∃ sub, (b.take sub).length ≤ sub ∧
      f.pdu_payload_len + (sub + PDU_OVERHEAD_BYTES) ≤ f.pdu_buf.length ∧
      f2 = (pushPduWrite f c cr (b.take sub) sub (sub + PDU_OVERHEAD_BYTES)
        (f.pdu_idx_counter % 256)).1 := by
  rw [push_pdu_slice_rest.eq_def] at h
  by_cases hempty : b.isEmpty
  · rw [if_pos hempty] at h
    simp at h
  · rw [if_neg hempty] at h
    try dsimp only [] at h
    by_cases hmax : f.pdu_buf.length - f.pdu_payload_len - PDU_OVERHEAD_BYTES = 0
    · rw [if_pos hmax] at h
      simp at h
    · rw [if_neg hmax] at h
      try dsimp only [] at h
      by_cases hfit :
          f.pdu_payload_len +
            (min (f.pdu_buf.length - f.pdu_payload_len - PDU_OVERHEAD_BYTES) b.length
              + PDU_OVERHEAD_BYTES) ≤ f.pdu_buf.length
      · rw [if_pos hfit] at h
        simp only [Prod.mk.injEq, Except.ok.injEq, Option.some.injEq] at h
        refine ⟨min (f.pdu_buf.length - f.pdu_payload_len - PDU_OVERHEAD_BYTES) b.length,
          ?_, hfit, h.2.symm⟩
        rw [List.length_take]
        omega
      · rw [if_neg hfit] at h
        simp at h

theorem push_rest_ok_none (f : CreatedFrame) (c : Nat) (cr b : List Nat)
    (f2 : CreatedFrame)
    (h : push_pdu_slice_rest f c cr b = (.ok none, f2)) : f2 = f := by
  rw [push_pdu_slice_rest.eq_def] at h
  by_cases hempty : b.isEmpty
  · rw [if_pos hempty] at h
    simp only [Prod.mk.injEq] at h
    exact h.2.symm
  · rw [if_neg hempty] at h
    try dsimp only [] at h
    by_cases hmax : f.pdu_buf.length - f.pdu_payload_len - PDU_OVERHEAD_BYTES = 0
    · rw [if_pos hmax] at h
      simp only [Prod.mk.injEq] at h
      exact h.2.symm
    · rw [if_neg hmax] at h
      try dsimp only [] at h
      by_cases hfit :
          f.pdu_payload_len +
            (min (f.pdu_buf.length - f.pdu_payload_len - PDU_OVERHEAD_BYTES) b.length
              + PDU_OVERHEAD_BYTES) ≤ f.pdu_buf.length
      · rw [if_pos hfit] at h
        simp at h
      · rw [if_neg hfit] at h
        simp at h

theorem push_rest_error (f : CreatedFrame) (c : Nat) (cr b : List Nat)
    (e : PduError) (f2 : CreatedFrame)
    (h : push_pdu_slice_rest f c cr b = (.error e, f2)) :
    f2 = { f with pdu_idx_counter := (f.pdu_idx_counter + 1) % 256 } := by
  rw [push_pdu_slice_rest.eq_def] at h
  by_cases hempty : b.isEmpty
  · rw [if_pos hempty] at h
    simp at h
  · rw [if_neg hempty] at h
    try dsimp only [] at h
    by_cases hmax : f.pdu_buf.length - f.pdu_payload_len - PDU_OVERHEAD_BYTES = 0
    · rw [if_pos hmax] at h
      simp at h
    · rw [if_neg hmax] at h
      try dsimp only [] at h
      by_cases hfit :
          f.pdu_payload_len +
            (min (f.pdu_buf.length - f.pdu_payload_len - PDU_OVERHEAD_BYTES) b.length
              + PDU_OVERHEAD_BYTES) ≤ f.pdu_buf.length
      · rw [if_pos hfit] at h
        simp at h
      · rw [if_neg hfit] at h
        simp only [Prod.mk.injEq] at h
        exact h.2.symm

theorem applyOps_inv : ∀ (ops : List PushOp) (f : CreatedFrame) (hs : List Nat),
    FlagsInv f hs → FlagsInv (applyOps f ops) (hs ++ headerLocs f ops) := by
  intro ops
  induction ops with
  | nil =>
    intro f hs inv
    simpa [applyOps, headerLocs] using inv
  | cons op ops ih =>
    intro f hs inv
    cases op with
    | pdu c cr d lo =>
      rcases hpp : push_pdu f c cr d lo with ⟨r, f2⟩
      rw [applyOps, headerLocs, hpp]
      dsimp only []
      cases r with
      | ok handle =>
        dsimp only []
        obtain ⟨dl, hdl, hfit, hf2⟩ := push_pdu_ok f c cr d lo handle f2 hpp
        have inv2 : FlagsInv f2 (hs ++ [f.pdu_payload_len]) := by
          rw [hf2]
          exact pushPduWrite_inv f hs inv c cr d dl (dl + PDU_OVERHEAD_BYTES)
            (f.pdu_idx_counter % 256)
            (by simp only [PDU_OVERHEAD_BYTES]; omega)
            (by simp only [PDU_OVERHEAD_BYTES]; omega) hfit
        have := ih f2 (hs ++ [f.pdu_payload_len]) inv2
        simpa [List.append_assoc] using this
      | error e =>
        dsimp only []
        have hf2 := push_pdu_error f c cr d lo e f2 hpp
        refine ih f2 hs ?_
        rw [hf2]
        exact flagsInv_counter f hs _ inv
    | rest c cr b =>
      rcases hpp : push_pdu_slice_rest f c cr b with ⟨r, f2⟩
      rw [applyOps, headerLocs, hpp]
      dsimp only []
      cases r with
      | ok o =>
        cases o with
        | none =>
          dsimp only []
          have hf2 := push_rest_ok_none f c cr b f2 hpp
          refine ih f2 hs ?_
          rw [hf2]
          exact inv
        | some pr =>
          obtain ⟨n, handle⟩ := pr
          dsimp only []
          obtain ⟨sub, hsub, hfit, hf2⟩ := push_rest_ok_some f c cr b n handle f2 hpp
          have inv2 : FlagsInv f2 (hs ++ [f.pdu_payload_len]) := by
            rw [hf2]
            exact pushPduWrite_inv f hs inv c cr (b.take sub) sub
              (sub + PDU_OVERHEAD_BYTES) (f.pdu_idx_counter % 256)
              (by simp only [PDU_OVERHEAD_BYTES]; omega)
              (by simp only [PDU_OVERHEAD_BYTES]; omega) hfit
          have := ih f2 (hs ++ [f.pdu_payload_len]) inv2
          simpa [List.append_assoc] using this
      | error e =>
        dsimp only []
        have hf2 := push_rest_error f c cr b e f2 hpp
        refine ih f2 hs ?_
        rw [hf2]
        exact flagsInv_counter f hs _ inv

/-- Claim C5: for every frame into which `k ≥ 1` PDUs have been pushed via
`push_pdu` / `push_pdu_slice_rest` (any mix, starting from a freshly claimed
frame), the `more_follows` flag in the packed header of each of the first
`k - 1` PDUs reads back as `true`, and the `more_follows` flag of the `k`-th
(last) PDU reads back as `false`. -/
theorem c5_more_follows (buflen k : Nat) (ops : List PushOp) :
    (∀ loc ∈ (headerLocs (freshCreatedFrame buflen k) ops).dropLast,
      readMoreFollows (applyOps (freshCreatedFrame buflen k) ops).pdu_buf loc = true) ∧
    (∀ loc, (headerLocs (freshCreatedFrame buflen k) ops).getLast? = some loc →
      readMoreFollows (applyOps (freshCreatedFrame buflen k) ops).pdu_buf loc = false) := by
  have hinv := applyOps_inv ops (freshCreatedFrame buflen k) [] (flagsInv_fresh buflen k)
  rw [List.nil_append] at hinv
  exact ⟨hinv.prev_true, hinv.last_false⟩

/-- The three-PDU push sequence of the `auto_more_follows` test in
`created_frame.rs` (three zero-length `FPWR` PDUs into a 64-byte frame whose
PDU region holds 48 bytes). -/
def threePushOps : List PushOp :=
  [ .pdu 5 [0x00, 0x10, 0x18, 0x09] [] none
  , .pdu 5 [0x01, 0x10, 0x18, 0x09] [] none
  , .pdu 5 [0x02, 0x10, 0x18, 0x09] [] none ]

/-- Witness for C5 on the `auto_more_follows` scenario: headers at offsets
0, 12 and 24; the first two read back `more_follows = true`, the last
`false`. -/
theorem c5_more_follows_witness :
    (∀ loc ∈ (headerLocs (freshCreatedFrame 48 0) threePushOps).dropLast,
      readMoreFollows (applyOps (freshCreatedFrame 48 0) threePushOps).pdu_buf loc = true) ∧
    (∀ loc, (headerLocs (freshCreatedFrame 48 0) threePushOps).getLast? = some loc →
      readMoreFollows (applyOps (freshCreatedFrame 48 0) threePushOps).pdu_buf loc = false) ∧
    headerLocs (freshCreatedFrame 48 0) threePushOps = [0, 12, 24] :=
  ⟨(c5_more_follows 48 0 threePushOps).1, (c5_more_follows 48 0 threePushOps).2,
    by decide⟩

end EtherCrab